import Mathlib

/-!
# The xv6 priority scheduler (`proc.c`): process table, life cycle and accounting

A shallow embedding of `src/xv6-public/proc.c`.

* The process table `ptable.proc` is a `List proc`; `NPROC` (declared in `param.h`) is the
  length of that list, so every result holds for every table size.
* `struct proc` is declared in `proc.h`; its fields are taken from their uses in `proc.c`.
  Pointers to table slots (`parent`, `initproc`, `c->proc`) are slot indices, a null pointer
  is `none`.  The trap frame and the context live inside the kernel stack page and are not
  read by any table operation; the embedding keeps `kstack` and leaves their contents out.
* C `int` values are mathematical integers: the statements are about executions in which
  no counter overflows (signed overflow is undefined behaviour in C).
* The table lock is not modelled: every function below is the body that runs with
  `ptable.lock` held, executed atomically.
* Results of the collaborators `kalloc`, `copyuvm`, `setupkvm`, `namei`, `allocuvm` and
  `deallocuvm` are arguments of the functions that call them.
-/

namespace Xv6

/-- The `enum procstate` of `proc.h`, in the order used by `procdump`. -/
inductive procstate where
  | UNUSED
  | EMBRYO
  | SLEEPING
  | RUNNABLE
  | RUNNING
  | ZOMBIE
deriving DecidableEq, Repr

open procstate

/-- A sleep channel (`void *chan`): the null pointer, the address of a table slot, or any
other kernel address.  Channels are only compared for equality. -/
inductive Chan where
  | null
  | slot (i : Nat)
  | addr (a : Nat)
deriving DecidableEq, Repr

/-- One slot of the process table (`struct proc`). -/
structure proc where
  sz : Nat
  pgdir : Option Nat
  kstack : Option Nat
  state : procstate
  pid : Int
  parent : Option Nat
  chan : Chan
  killed : Int
  ofile : List (Option Nat)
  cwd : Option Nat
  name : List Nat
  ctime : Int
  stime : Int
  retime : Int
  rutime : Int
  elapsed : Int
  priority : Int
  timeslice : Int
deriving DecidableEq, Repr

/-- A zero-initialised slot with `nofile` open-file entries: the table lives in `.bss`.
The name is kept as a C string (the bytes before the terminating NUL). -/
def procZero (nofile : Nat) : proc :=
  { sz := 0, pgdir := none, kstack := none, state := UNUSED, pid := 0, parent := none,
    chan := Chan.null, killed := 0, ofile := List.replicate nofile none, cwd := none,
    name := [], ctime := 0, stime := 0, retime := 0, rutime := 0, elapsed := 0,
    priority := 0, timeslice := 0 }

instance : Inhabited proc := ⟨procZero 0⟩

/-- The pointer value of an optional slot reference, as a channel. -/
def chanOf : Option Nat → Chan
  | none => Chan.null
  | some i => Chan.slot i

/-- Index of the first slot satisfying `c`, scanning upwards from slot 0: the loop
`for (p = ptable.proc; p < &ptable.proc[NPROC]; p++) if (c(p)) <leave the loop>`. -/
def firstSlot (c : proc → Bool) : List proc → Option Nat
  | [] => none
  | p :: ps => if c p then some 0 else (firstSlot c ps).map (· + 1)

/-- Apply `f` to slot `i` of the table (`p->field = ...` for `p = &ptable.proc[i]`). -/
def modifySlot (f : proc → proc) : List proc → Nat → List proc
  | [], _ => []
  | p :: ps, 0 => f p :: ps
  | p :: ps, i + 1 => p :: modifySlot f ps i

/-! ## Priority policy: `updateNextEpoch` and `getNextProcessToRun` -/

/-- The budget written by `updateNextEpoch`: `((32 / priority) < 16) ? 8 : (32 / priority)`. -/
def epochBudget (priority : Nat) : Int :=
  if 32 / priority < 16 then 8 else ((32 / priority : Nat) : Int)

/-- The replenishing loop of `updateNextEpoch`: every slot with `state == RUNNABLE` and
`timeslice == 0` gets the budget of level `priority`.  The loop does not test `p->priority`. -/
def replenish (priority : Nat) (t : List proc) : List proc :=
  t.map (fun p =>
    if p.state = RUNNABLE ∧ p.timeslice = 0 then { p with timeslice := epochBudget priority }
    else p)

/-- Function `updateNextEpoch(priority, expired, &exit)`.  The result is the table, the
`expired` array and the `exit` flag afterwards; `none` is a division by zero, which the loop
would execute for `priority == 0` on the first slot that is RUNNABLE with `timeslice == 0`. -/
def updateNextEpoch (t : List proc) (priority : Nat) (expired : List Int) (exit : Int) :
    Option (List proc × List Int × Int) :=
  if expired.getD priority 0 = 0 then
    some (t, expired, if priority = 3 then 1 else exit)
  else if priority = 0 ∧ t.any (fun p => p.state = RUNNABLE ∧ p.timeslice = 0) then
    none
  else
    some (replenish priority t, expired.set priority 0, exit)

/-- The two tests of the inner loop of `getNextProcessToRun` on slot `p` at level
`priority`; both end the function with `return p`. -/
def selectable (priority : Int) (p : proc) : Bool :=
  (p.state = RUNNABLE ∧ p.timeslice > 0 ∧ p.priority = priority) ∨
  (p.state = RUNNABLE ∧ priority = 0 ∧ p.priority = priority)

/-- The inner loop `for (int i = 0; i < NPROC; i++)` of `getNextProcessToRun` with `n`
iterations left, looking at slot `(cursor + i) % NPROC`; `cursor` is
`prioIndices[priority]`.  The result is the index of the slot returned, if any. -/
def scanLevel (t : List proc) (priority : Int) (cursor : Nat) : Nat → Nat → Option Nat
  | 0, _ => none
  | n + 1, i =>
    let idx := (cursor + i) % t.length
    if selectable priority (t.getD idx default) then some idx
    else scanLevel t priority cursor n (i + 1)

/-- The outer loop `for (int priority = 3; priority >= 0; priority--)` of
`getNextProcessToRun` over the levels still to visit.  `prioIndices` is the local cursor
array: it is only written immediately before `return p`, so the write is never read. -/
def levelLoop (prioIndices : List Nat) :
    List Nat → List proc → List Int → Int → Option (Option Nat × List proc)
  | [], t, _, _ => some (none, t)
  | priority :: rest, t, expired, exit =>
    match scanLevel t priority (prioIndices.getD priority 0) t.length 0 with
    | some idx => some (some idx, t)
    | none =>
      match updateNextEpoch t priority expired exit with
      | none => none
      | some (t1, expired1, exit1) =>
        if exit1 ≠ 0 then some (none, t1) else levelLoop prioIndices rest t1 expired1 exit1

/-- Function `getNextProcessToRun()`: the slot returned (`none` for `NULL`) and the table
afterwards.  The outer `none` is a division by zero inside `updateNextEpoch`.  The locals
`prioIndices = {0}`, `expired = {0, 1, 1, 1}` and `exit = 0` are initialised on every
call. -/
def getNextProcessToRun (t : List proc) : Option (Option Nat × List proc) :=
  levelLoop [0, 0, 0, 0] [3, 2, 1, 0] t [0, 1, 1, 1] 0

/-! ## Kernel state -/

/-- The global state of `proc.c` on one CPU: the table `ptable.proc` (field `ptable`), the counter
`nextpid`, the pointer `initproc` and the CPU's current process `c->proc`. -/
structure Kernel where
  ptable : List proc
  nextpid : Int
  initproc : Option Nat
  cproc : Option Nat
deriving DecidableEq, Repr

/-- The state before `userinit`: a zero-initialised table of `nproc` slots, `nextpid = 1`. -/
def boot (nproc nofile : Nat) : Kernel :=
  { ptable := List.replicate nproc (procZero nofile), nextpid := 1, initproc := none,
    cproc := none }

/-- Slot `i` of the table (`ptable.proc[i]`). -/
def Kernel.slot (s : Kernel) (i : Nat) : proc := s.ptable.getD i default

/-! ## Slot allocation and process creation -/

/-- The assignments after the label `found:` in `allocproc`. -/
def claimSlot (nextpid : Int) (ticks : Nat) (p : proc) : proc :=
  { p with state := EMBRYO, pid := nextpid, ctime := ticks, stime := 0, retime := 0,
           rutime := 0, priority := 2, timeslice := 16 }

/-- Function `allocproc()`: the state afterwards and the slot returned (`none` for 0).
`ticks` is the global tick counter and `kalloc` the result of `kalloc()`. -/
def allocproc (s : Kernel) (ticks : Nat) (kalloc : Option Nat) : Kernel × Option Nat :=
  match firstSlot (fun p => p.state = UNUSED) s.ptable with
  | none => (s, none)
  | some i =>
    let found := modifySlot (claimSlot s.nextpid ticks) s.ptable i
    match kalloc with
    | none =>
      ({ s with ptable := modifySlot (fun p => { p with kstack := none, state := UNUSED }) found i,
                  nextpid := s.nextpid + 1 }, none)
    | some a =>
      ({ s with ptable := modifySlot (fun p => { p with kstack := some a }) found i,
                  nextpid := s.nextpid + 1 }, some i)

/-- The bytes of the string "initcode". -/
def initcode : List Nat := [105, 110, 105, 116, 99, 111, 100, 101]

/-- Function `userinit()`; `none` is the panic "userinit: out of memory?" or the null
dereference when `allocproc` returns 0.  `pgsize` is the constant `PGSIZE` of `mmu.h`. -/
def userinit (s : Kernel) (ticks : Nat) (kalloc setupkvm namei : Option Nat) (pgsize : Nat) :
    Option Kernel :=
  match allocproc s ticks kalloc with
  | (_, none) => none
  | (s1, some i) =>
    match setupkvm with
    | none => none
    | some pg =>
      some { s1 with
        initproc := some i,
        ptable := modifySlot (fun p => { p with pgdir := some pg, sz := pgsize, name := initcode,
                                                cwd := namei, state := RUNNABLE }) s1.ptable i }

/-- Function `growproc(n)` for the caller `curproc`; `vm` is the result of `allocuvm` or
`deallocuvm`. -/
def growproc (s : Kernel) (curproc : Nat) (n : Int) (vm : Nat) : Kernel × Int :=
  if n ≠ 0 ∧ vm = 0 then (s, -1)
  else
    ({ s with ptable := modifySlot (fun p => { p with sz := if n ≠ 0 then vm else p.sz })
                        s.ptable curproc }, 0)

/-- The loop `if (curproc->ofile[i]) np->ofile[i] = filedup(curproc->ofile[i])` of `fork`;
`filedup` hands back the handle it is given. -/
def dupFiles : List (Option Nat) → List (Option Nat) → List (Option Nat)
  | c :: cs, n :: ns => (if c.isSome then c else n) :: dupFiles cs ns
  | _, ns => ns

/-- Function `fork()` called by the process in slot `curproc`: the state afterwards and the
value returned.  `kalloc` and `copyuvm` are the results of the two allocations. -/
def fork (s : Kernel) (curproc : Nat) (ticks : Nat) (kalloc copyuvm : Option Nat) :
    Kernel × Int :=
  match allocproc s ticks kalloc with
  | (s1, none) => (s1, -1)
  | (s1, some np) =>
    match copyuvm with
    | none =>
      ({ s1 with ptable := modifySlot (fun p => { p with pgdir := none, kstack := none,
                                                         state := UNUSED }) s1.ptable np }, -1)
    | some pg =>
      let cur := s1.slot curproc
      ({ s1 with ptable := modifySlot (fun p => { p with pgdir := some pg, sz := cur.sz,
                                                         parent := some curproc,
                                                         ofile := dupFiles cur.ofile p.ofile,
                                                         cwd := cur.cwd, name := cur.name,
                                                         state := RUNNABLE }) s1.ptable np },
         (s1.slot np).pid)

/-! ## Sleep, wakeup, yield -/

/-- Function `wakeup1(chan)`. -/
def wakeup1 (chan : Chan) (t : List proc) : List proc :=
  t.map (fun p => if p.state = SLEEPING ∧ p.chan = chan then { p with state := RUNNABLE } else p)

/-- Function `wakeup(chan)`: `wakeup1` under the table lock. -/
def wakeup (s : Kernel) (chan : Chan) : Kernel :=
  { s with ptable := wakeup1 chan s.ptable }

/-- Function `sched()` as seen from the table: control passes to the scheduler, which
resumes after its `swtch` and executes `c->proc = 0`.  Every caller has just stored a state
other than RUNNING, so the panic "sched running" is not taken. -/
def sched (s : Kernel) : Kernel :=
  { s with cproc := none }

/-- Function `yield()` called by the process in slot `curproc`, up to the switch. -/
def yield (s : Kernel) (curproc : Nat) : Kernel :=
  sched { s with ptable := modifySlot (fun p => { p with state := RUNNABLE }) s.ptable curproc }

/-- Function `sleep(chan, lk)` called by the process in slot `curproc`, up to the switch
inside `sched`. -/
def sleep (s : Kernel) (curproc : Nat) (chan : Chan) : Kernel :=
  sched { s with ptable := modifySlot (fun p => { p with chan := chan, state := SLEEPING })
                           s.ptable curproc }

/-- The rest of `sleep` once the process runs again: `p->chan = 0`. -/
def sleepReturn (s : Kernel) (curproc : Nat) : Kernel :=
  { s with ptable := modifySlot (fun p => { p with chan := Chan.null }) s.ptable curproc }

/-! ## exit, wait, wait2, kill -/

/-- The loop of `exit` that passes abandoned children to init, with `n` slots left and `i`
the slot looked at. -/
def reparent (curproc : Nat) (initproc : Option Nat) : Nat → Nat → List proc → List proc
  | 0, _, t => t
  | n + 1, i, t =>
    if (t.getD i default).parent = some curproc then
      let t1 := modifySlot (fun q => { q with parent := initproc }) t i
      reparent curproc initproc n (i + 1)
        (if (t1.getD i default).state = ZOMBIE then wakeup1 (chanOf initproc) t1 else t1)
    else reparent curproc initproc n (i + 1) t

/-- Function `exit()` called by the process in slot `curproc`, up to the call of `sched`;
`none` is the panic "init exiting". -/
def exit (s : Kernel) (curproc : Nat) : Option Kernel :=
  if some curproc = s.initproc then none
  else
    let t0 := modifySlot (fun p => { p with ofile := p.ofile.map (fun _ => none), cwd := none })
                s.ptable curproc
    let t1 := wakeup1 (chanOf (t0.getD curproc default).parent) t0
    let t2 := reparent curproc s.initproc t1.length 0 t1
    some { s with ptable := modifySlot (fun p => { p with state := ZOMBIE }) t2 curproc }

/-- The scan of `wait` and `wait2` over the slots from index `i` on: the index of the first
ZOMBIE child of `curproc`, if any, and the flag `havekids`. -/
def waitScan (curproc : Nat) : List proc → Nat → Bool → Option Nat × Bool
  | [], _, havekids => (none, havekids)
  | p :: ps, i, havekids =>
    if p.parent ≠ some curproc then waitScan curproc ps (i + 1) havekids
    else if p.state = ZOMBIE then (some i, true)
    else waitScan curproc ps (i + 1) true

/-- The assignments of `wait` to the child found: `kstack = 0`, `pid = 0`, `parent = 0`,
`name[0] = 0`, `killed = 0`, `state = UNUSED`. -/
def reap (p : proc) : proc :=
  { p with kstack := none, pid := 0, parent := none, name := [], killed := 0, state := UNUSED }

/-- Function `wait()` called by the process in slot `curproc`: one pass of its `for (;;)`
loop.  The value is `some v` when the call returns `v`, and `none` when the caller goes to
sleep on its own slot (the loop is run again after it is woken). -/
def wait (s : Kernel) (curproc : Nat) : Kernel × Option Int :=
  match waitScan curproc s.ptable 0 false with
  | (some i, _) => ({ s with ptable := modifySlot reap s.ptable i }, some (s.slot i).pid)
  | (none, havekids) =>
    if ¬ havekids ∨ (s.slot curproc).killed ≠ 0 then (s, some (-1))
    else (sleep s curproc (Chan.slot curproc), none)

/-- The four cells `*retime`, `*rutime`, `*stime`, `*elapsed` that `wait2` writes to. -/
structure Times where
  retime : Int
  rutime : Int
  stime : Int
  elapsed : Int
deriving DecidableEq, Repr

/-- Function `wait2(retime, rutime, stime, elapsed)`: as `wait`, with the contents of the
four cells before (`out`) and after the call. -/
def wait2 (s : Kernel) (curproc : Nat) (out : Times) : Kernel × Option Int × Times :=
  match waitScan curproc s.ptable 0 false with
  | (some i, _) =>
    let t1 := modifySlot reap s.ptable i
    let p := t1.getD i default
    ({ s with ptable := t1 }, some (s.slot i).pid,
     { retime := p.retime, rutime := p.rutime, stime := p.stime, elapsed := p.elapsed })
  | (none, havekids) =>
    if ¬ havekids ∨ (s.slot curproc).killed ≠ 0 then (s, some (-1), out)
    else (sleep s curproc (Chan.slot curproc), none, out)

/-- Function `kill(pid)`: the state afterwards and the value returned. -/
def kill (s : Kernel) (pid : Int) : Kernel × Int :=
  match firstSlot (fun p => p.pid = pid) s.ptable with
  | some i =>
    ({ s with ptable := modifySlot (fun p => { p with killed := 1,
                                                      state := if p.state = SLEEPING then RUNNABLE
                                                             else p.state }) s.ptable i }, 0)
  | none => (s, -1)

/-! ## Scheduler, priorities, tick accounting -/

/-- The statements of `scheduler` between `c->proc = p` and `swtch`, applied to the chosen
slot: `p->rutime++; if (p->priority) p->timeslice--; p->state = RUNNING`. -/
def charge (p : proc) : proc :=
  { p with rutime := p.rutime + 1,
           timeslice := if p.priority ≠ 0 then p.timeslice - 1 else p.timeslice,
           state := RUNNING }

/-- One iteration of the loop `for (p = ptable.proc; ...; p++)` of `scheduler` at slot `p`,
up to `swtch`: a slot that is not RUNNABLE is skipped, otherwise the slot returned by
`getNextProcessToRun` (or `p` itself when that is `NULL`) is dispatched.  `none` is a
division by zero inside the selection. -/
def schedulerStep (s : Kernel) (p : Nat) : Option Kernel :=
  if (s.slot p).state ≠ RUNNABLE then some s
  else
    match getNextProcessToRun s.ptable with
    | none => none
    | some (p1, t) =>
      some { s with ptable := modifySlot charge t (p1.getD p), cproc := some (p1.getD p) }

/-- Function `set_priority(prio)` called by the process in slot `curproc`. -/
def set_priority (s : Kernel) (curproc : Nat) (prio : Int) : Kernel × Int :=
  ({ s with ptable := modifySlot (fun p => { p with priority := prio,
                                                    timeslice := if prio = 1 then 32
                                                               else if prio = 2 then 16
                                                               else if prio = 3 then 8
                                                               else -1 }) s.ptable curproc }, 0)

/-- The body of the loop of `updateFields` on one slot. -/
def tickSlot (p : proc) : proc :=
  let p1 := if p.state ≠ ZOMBIE then { p with elapsed := p.elapsed + 1 } else p
  match p1.state with
  | RUNNABLE => { p1 with retime := p1.retime + 1 }
  | SLEEPING => { p1 with stime := p1.stime + 1 }
  | _ => p1

/-- Function `updateFields()`, called on every timer tick. -/
def updateFields (t : List proc) : List proc :=
  t.map tickSlot

/-- One operation of `proc.c` on the kernel state, with any caller, any arguments and any
result of the collaborators. -/
inductive Step : Kernel → Kernel → Prop where
  | allocproc (s : Kernel) (ticks : Nat) (kalloc : Option Nat) :
      Step s (allocproc s ticks kalloc).1
  | userinit (s s1 : Kernel) (ticks : Nat) (kalloc setupkvm namei : Option Nat) (pgsize : Nat) :
      userinit s ticks kalloc setupkvm namei pgsize = some s1 → Step s s1
  | growproc (s : Kernel) (c : Nat) (n : Int) (vm : Nat) : Step s (growproc s c n vm).1
  | fork (s : Kernel) (c ticks : Nat) (kalloc copyuvm : Option Nat) :
      Step s (fork s c ticks kalloc copyuvm).1
  | exit (s s1 : Kernel) (c : Nat) : exit s c = some s1 → Step s (sched s1)
  | wait (s : Kernel) (c : Nat) : Step s (wait s c).1
  | wait2 (s : Kernel) (c : Nat) (out : Times) : Step s (wait2 s c out).1
  | kill (s : Kernel) (pid : Int) : Step s (kill s pid).1
  | scheduler (s s1 : Kernel) (p : Nat) : schedulerStep s p = some s1 → Step s s1
  | set_priority (s : Kernel) (c : Nat) (prio : Int) : Step s (set_priority s c prio).1
  | yield (s : Kernel) (c : Nat) : Step s (yield s c)
  | sleep (s : Kernel) (c : Nat) (chan : Chan) : Step s (sleep s c chan)
  | sleepReturn (s : Kernel) (c : Nat) : Step s (sleepReturn s c)
  | wakeup (s : Kernel) (chan : Chan) : Step s (wakeup s chan)
  | tick (s : Kernel) : Step s { s with ptable := updateFields s.ptable }

/-- The states reachable from the zero-initialised table with `nextpid = 1` by the
operations of `proc.c`. -/
inductive Reachable (nproc nofile : Nat) : Kernel → Prop where
  | boot : Reachable nproc nofile (boot nproc nofile)
  | step (s s1 : Kernel) : Reachable nproc nofile s → Step s s1 → Reachable nproc nofile s1

/-! ## States used by the witnesses and the evaluations -/

/-- A zero-initialised slot given a state, a priority and a timeslice. -/
def slotWith (st : procstate) (priority timeslice : Int) : proc :=
  { procZero 0 with state := st, priority := priority, timeslice := timeslice }

/-- A table with a priority-1 slot that has budget and a priority-2 slot that has none. -/
def exhaustedAbove : List proc :=
  [slotWith RUNNABLE 1 5, slotWith RUNNABLE 2 0]

/-- A table whose only slot is RUNNABLE at priority 3 with an exhausted budget. -/
def exhaustedTop : List proc :=
  [slotWith RUNNABLE 3 0]


/-- The running process in slot 0 sleeps on `chan`, is woken, is dispatched again and
finishes `sleep`; no timer tick happens in between. -/
def sleepWakeDispatch (s : Kernel) (chan : Chan) : Option Kernel :=
  (schedulerStep (wakeup (sleep s 0 chan) chan) 0).map (fun s1 => sleepReturn s1 0)

/-- After `userinit` on a one-slot table the init process is dispatched, and then three times
sleeps, is woken and is dispatched again; `updateFields` never runs. -/
def fourDispatches : Option Kernel :=
  ((((userinit (boot 1 0) 0 (some 1) (some 2) (some 3) 4096).bind
    (fun s => schedulerStep s 0)).bind
    (fun s => sleepWakeDispatch s (Chan.addr 7))).bind
    (fun s => sleepWakeDispatch s (Chan.addr 7))).bind
    (fun s => sleepWakeDispatch s (Chan.addr 7))

/-- Every pid stored in the table has been handed out already: it is below `nextpid`, and
`nextpid` is at least 1. -/
def pidsBelow (s : Kernel) : Prop :=
  1 ≤ s.nextpid ∧ ∀ p ∈ s.ptable, p.pid < s.nextpid

/-- The state after `userinit` on a two-slot table. -/
def initOfTwo : Kernel :=
  (userinit (boot 2 0) 0 (some 1) (some 2) (some 3) 4096).getD (boot 2 0)
/-- The state after `userinit` on a two-slot table, a dispatch of the init process, a `fork`
by it and its `yield`: slots 0 and 1 are both RUNNABLE at priority 2 with budget. -/
def twoReady : Option Kernel :=
  (schedulerStep initOfTwo 0).map (fun s => yield (fork s 0 0 (some 5) (some 6)).1 0)

/-- The state after `userinit` on a two-slot table, a dispatch of the init process and one
timer tick; slot 1 has never been allocated. -/
def tickedInit : Option Kernel :=
  (schedulerStep initOfTwo 0).map (fun s => { s with ptable := updateFields s.ptable })

/-- A parent in slot 0 with a sleeping child in slot 1 and a ZOMBIE child in slot 2. -/
def family : Kernel :=
  { ptable := [{ slotWith RUNNING 2 16 with pid := 1 },
               { slotWith SLEEPING 2 16 with pid := 2, parent := some 0 },
               { slotWith ZOMBIE 2 3 with pid := 3, parent := some 0, retime := 4, rutime := 5,
                                          stime := 6, elapsed := 20 }],
    nextpid := 4, initproc := some 0, cproc := some 0 }

/-! ## Auxiliary notions for the life-cycle and scheduling results -/

/-- The effect of `wakeup1(chan)` on one slot. -/
def wake (chan : Chan) (p : proc) : proc :=
  if p.state = SLEEPING ∧ p.chan = chan then { p with state := RUNNABLE } else p

/-- The effect of the test `if (p->parent == curproc) p->parent = initproc` of `exit` on one
slot. -/
def adopt (curproc : Nat) (initproc : Option Nat) (p : proc) : proc :=
  if p.parent = some curproc then { p with parent := initproc } else p

/-- Whether some slot with index at least `i` is a ZOMBIE child of `curproc`. -/
def zombieChildFrom (curproc : Nat) (i : Nat) (t : List proc) : Bool :=
  (t.drop i).any (fun p => p.parent = some curproc ∧ p.state = ZOMBIE)

/-- The slot after the reparenting loop of `exit`: adopted by `initproc` if `a` says that the
loop has passed the slot, and woken on the channel `initproc` if `z` says that the loop has
met a ZOMBIE child. -/
def settle (curproc : Nat) (initproc : Option Nat) (z a : Bool) (p : proc) : proc :=
  let p1 := if a then adopt curproc initproc p else p
  if z then wake (chanOf initproc) p1 else p1

/-- One operation of `proc.c` as the kernel performs it: `fork` is called by a RUNNING
process and `set_priority` with a level from 0 to 3; every other caller, argument and result
of a collaborator is arbitrary. -/
inductive Op : Kernel → Kernel → Prop where
  | allocproc (s : Kernel) (ticks : Nat) (kalloc : Option Nat) :
      Op s (allocproc s ticks kalloc).1
  | userinit (s s1 : Kernel) (ticks : Nat) (kalloc setupkvm namei : Option Nat) (pgsize : Nat) :
      userinit s ticks kalloc setupkvm namei pgsize = some s1 → Op s s1
  | growproc (s : Kernel) (c : Nat) (n : Int) (vm : Nat) : Op s (growproc s c n vm).1
  | fork (s : Kernel) (c ticks : Nat) (kalloc copyuvm : Option Nat) :
      (s.slot c).state = RUNNING → Op s (fork s c ticks kalloc copyuvm).1
  | exit (s s1 : Kernel) (c : Nat) : exit s c = some s1 → Op s (sched s1)
  | wait (s : Kernel) (c : Nat) : Op s (wait s c).1
  | wait2 (s : Kernel) (c : Nat) (out : Times) : Op s (wait2 s c out).1
  | kill (s : Kernel) (pid : Int) : Op s (kill s pid).1
  | scheduler (s s1 : Kernel) (p : Nat) : schedulerStep s p = some s1 → Op s s1
  | set_priority (s : Kernel) (c : Nat) (prio : Int) :
      0 ≤ prio → prio ≤ 3 → Op s (set_priority s c prio).1
  | yield (s : Kernel) (c : Nat) : Op s (yield s c)
  | sleep (s : Kernel) (c : Nat) (chan : Chan) : Op s (sleep s c chan)
  | sleepReturn (s : Kernel) (c : Nat) : Op s (sleepReturn s c)
  | wakeup (s : Kernel) (chan : Chan) : Op s (wakeup s chan)
  | tick (s : Kernel) : Op s { s with ptable := updateFields s.ptable }

/-- The states reachable from `s0` by the operations `Op`. -/
inductive ReachableFrom (s0 : Kernel) : Kernel → Prop where
  | start : ReachableFrom s0 s0
  | step (s s1 : Kernel) : ReachableFrom s0 s → Op s s1 → ReachableFrom s0 s1

/-- The priority of the slot is not negative, and a positive priority comes with a
timeslice that is not negative. -/
def budgetOk (p : proc) : Prop :=
  0 ≤ p.priority ∧ (0 < p.priority → 0 ≤ p.timeslice)

/-- The slot holds a process that has not exited: it is neither UNUSED nor ZOMBIE. -/
def alive (p : proc) : Prop :=
  p.state ≠ UNUSED ∧ p.state ≠ ZOMBIE

/-- The pointer `initproc` and every non-null `parent` refer to a slot that is alive. -/
def parentsAlive (s : Kernel) : Prop :=
  (∃ (ip : Nat) (q : proc), s.initproc = some ip ∧ s.ptable[ip]? = some q ∧ alive q) ∧
  ∀ (j : Nat) (p : proc) (k : Nat), s.ptable[j]? = some p → p.parent = some k →
    ∃ q : proc, s.ptable[k]? = some q ∧ alive q

/-- The table `t1` comes from `t` without any process exiting: no slot appears, every alive
slot stays alive, and the parent of a slot is kept, cleared, or set to a slot that is alive in
`t1`. -/
def gentle (t t1 : List proc) : Prop :=
  (∀ j : Nat, t[j]? = none → t1[j]? = none) ∧
  ∀ (j : Nat) (p : proc), t[j]? = some p → ∃ q : proc, t1[j]? = some q ∧
    (alive p → alive q) ∧
    (q.parent = p.parent ∨ q.parent = none ∨
      ∃ (k : Nat) (qk : proc), q.parent = some k ∧ t1[k]? = some qk ∧ alive qk)

/-- Slot 0 is dispatched and yields, `n` times in a row. -/
def dispatchYield : Nat → Kernel → Option Kernel
  | 0, s => some s
  | n + 1, s => (schedulerStep s 0).bind (fun s1 => dispatchYield n (yield s1 0))

/-- After `userinit` on a two-slot table the init process is dispatched, calls
`set_priority(3)` (budget 8), and is then dispatched eight more times, yielding each time:
it is RUNNABLE at priority 3 with timeslice 0, and slot 1 is UNUSED. -/
def exhaustedInit : Option Kernel :=
  ((schedulerStep initOfTwo 0).map (fun s => yield (set_priority s 0 3).1 0)).bind
    (dispatchYield 8)

/-- After `userinit` on a two-slot table the init process is dispatched, calls
`set_priority(-1)` and yields: it is RUNNABLE with priority -1 and timeslice -1. -/
def negativeInit : Option Kernel :=
  (schedulerStep initOfTwo 0).map (fun s => yield (set_priority s 0 (-1)).1 0)

/-- After `userinit` on a two-slot table the init process is dispatched, forks a child
(priority 2, budget 16), calls `set_priority(3)` and uses its budget of 8 up: init is RUNNABLE
at priority 3 with timeslice 0, the child is RUNNABLE at priority 2 with timeslice 16. -/
def exhaustedParent : Option Kernel :=
  ((schedulerStep initOfTwo 0).map
    (fun s => yield (set_priority (fork s 0 0 (some 5) (some 6)).1 0 3).1 0)).bind
    (dispatchYield 8)

/-- The state that `exhaustedInit` arrives at. -/
def exhaustedState : Kernel :=
  exhaustedInit.getD (boot 0 0)

/-- The state that `negativeInit` arrives at. -/
def negativeState : Kernel :=
  negativeInit.getD (boot 0 0)

/-- On a three-slot table: `userinit`; init is dispatched, forks the process of slot 1 and
goes to sleep in `wait`; the process of slot 1 is dispatched and forks the process of
slot 2. -/
def nestedFork : Option Kernel :=
  (userinit (boot 3 0) 0 (some 1) (some 2) (some 3) 4096).bind (fun s0 =>
    (schedulerStep s0 0).bind (fun s1 =>
      (schedulerStep (wait (fork s1 0 0 (some 4) (some 5)).1 0).1 1).map (fun s2 =>
        (fork s2 1 0 (some 6) (some 7)).1)))

/-- The state that `nestedFork` arrives at: slot 1 is RUNNING, its parent init sleeps on its
own slot, and slot 2 is the RUNNABLE child of slot 1. -/
def nestedState : Kernel :=
  nestedFork.getD (boot 0 0)

/-- The state after `userinit` on a two-slot table and the dispatch of the init process. -/
def dispatchedInit : Kernel :=
  (schedulerStep initOfTwo 0).getD (boot 0 0)

/-- The state after `userinit` on a two-slot table, the dispatch of the init process and its
successful `fork`: slot 1 is the RUNNABLE child of slot 0. -/
def forkedInit : Kernel :=
  (fork dispatchedInit 0 0 (some 5) (some 6)).1


/-! ## The calls of `updateNextEpoch` made by one selection -/

/-- The arguments of one call `updateNextEpoch(priority, expired, &exit)`, with the table
at the time of the call. -/
structure EpochCall where
  table : List proc
  priority : Nat
  expired : List Int
  exit : Int
deriving DecidableEq, Repr

/-- The calls of `updateNextEpoch` made by the outer loop of `getNextProcessToRun`, in the
order in which they are made.  The loop is that of `levelLoop`: a level whose scan returns a
slot makes no call and ends the function; otherwise `updateNextEpoch` is called with the
current table, `expired` and `exit`, and the loop goes on with what the call leaves unless it
divides by zero or sets `exit`. -/
def epochCalls (prioIndices : List Nat) :
    List Nat → List proc → List Int → Int → List EpochCall
  | [], _, _, _ => []
  | priority :: rest, t, expired, exit =>
    match scanLevel t priority (prioIndices.getD priority 0) t.length 0 with
    | some _ => []
    | none =>
      { table := t, priority := priority, expired := expired, exit := exit } ::
        match updateNextEpoch t priority expired exit with
        | none => []
        | some (t1, expired1, exit1) =>
          if exit1 ≠ 0 then [] else epochCalls prioIndices rest t1 expired1 exit1

/-- The calls of `updateNextEpoch` made by `getNextProcessToRun()` on the table `t`. -/
def getNextProcessToRunCalls (t : List proc) : List EpochCall :=
  epochCalls [0, 0, 0, 0] [3, 2, 1, 0] t [0, 1, 1, 1] 0


/-! ## Table scans and slot updates -/

theorem firstSlot_none {c : proc → Bool} {t : List proc} :
    firstSlot c t = none ↔ ∀ p ∈ t, c p = false := by
  induction t with
  | nil => simp [firstSlot]
  | cons a as ih =>
    by_cases h : c a = true
    · simp [firstSlot, h]
    · simp [firstSlot, h, ih]

theorem firstSlot_some {c : proc → Bool} {t : List proc} {i : Nat} (h : firstSlot c t = some i) :
    ∃ p, t[i]? = some p ∧ c p = true ∧ ∀ k q, k < i → t[k]? = some q → c q = false := by
  induction t generalizing i with
  | nil => simp [firstSlot] at h
  | cons a as ih =>
    by_cases ha : c a = true
    · simp [firstSlot, ha] at h
      subst h
      exact ⟨a, by simp, ha, by intro k q hk; omega⟩
    · simp [firstSlot, ha] at h
      obtain ⟨i0, hi0, rfl⟩ := h
      obtain ⟨p, hp, hc, hmin⟩ := ih hi0
      refine ⟨p, by simpa using hp, hc, ?_⟩
      intro k q hk hq
      cases k with
      | zero => simp at hq; subst hq; simpa using ha
      | succ k => exact hmin k q (by omega) (by simpa using hq)

theorem firstSlot_of_mem (c : proc → Bool) {t : List proc} {p : proc} (hp : p ∈ t)
    (hc : c p = true) : ∃ i, firstSlot c t = some i := by
  cases h : firstSlot c t with
  | some i => exact ⟨i, rfl⟩
  | none => rw [firstSlot_none] at h; rw [h p hp] at hc; cases hc

theorem scanLevel_drop (t : List proc) (q : Int) :
    ∀ n i, i + n = t.length →
      scanLevel t q 0 n i = (firstSlot (selectable q) (t.drop i)).map (· + i) := by
  intro n
  induction n with
  | zero =>
    intro i hi
    have : t.drop i = [] := by simp [List.drop_eq_nil_iff]; omega
    simp [scanLevel, this, firstSlot]
  | succ n ih =>
    intro i hi
    have hlt : i < t.length := by omega
    have hd : t.drop i = t[i] :: t.drop (i + 1) := by
      simp
    have hmod : (0 + i) % t.length = i := by rw [Nat.zero_add]; exact Nat.mod_eq_of_lt hlt
    have hget : t.getD i default = t[i] := by simp [List.getD, hlt]
    rw [hd]
    simp only [scanLevel, hmod, hget, firstSlot]
    by_cases hs : selectable q t[i] = true
    · simp [hs]
    · simp only [hs]
      rw [ih (i + 1) (by omega)]
      cases firstSlot (selectable q) (List.drop (i + 1) t) <;> simp
      omega

theorem scanLevel_zero (t : List proc) (q : Int) :
    scanLevel t q 0 t.length 0 = firstSlot (selectable q) t := by
  rw [scanLevel_drop t q t.length 0 (by simp), List.drop_zero]
  cases firstSlot (selectable q) t <;> rfl

theorem length_modifySlot (f : proc → proc) (t : List proc) (i : Nat) :
    (modifySlot f t i).length = t.length := by
  induction t generalizing i with
  | nil => simp [modifySlot]
  | cons a as ih => cases i <;> simp [modifySlot, ih]

theorem getElem?_modifySlot (f : proc → proc) (t : List proc) (i j : Nat) :
    (modifySlot f t i)[j]? = if j = i then t[j]?.map f else t[j]? := by
  induction t generalizing i j with
  | nil => simp [modifySlot]
  | cons a as ih =>
    cases i with
    | zero => cases j <;> simp [modifySlot]
    | succ i => cases j <;> simp [modifySlot, ih]



/-! ## Selection by `getNextProcessToRun` -/

theorem selectable_pos {q : Int} (hq : q ≠ 0) (p : proc) :
    selectable q p = true ↔ p.state = RUNNABLE ∧ 0 < p.timeslice ∧ p.priority = q := by
  simp [selectable, hq]

theorem mem_replenish_of_pos {q : Nat} {t : List proc} {p : proc} (hp : p ∈ t)
    (hts : 0 < p.timeslice) : p ∈ replenish q t := by
  refine List.mem_map.mpr ⟨p, hp, ?_⟩
  have : ¬ (p.state = RUNNABLE ∧ p.timeslice = 0) := by
    rintro ⟨-, h0⟩; omega
  simp [this]

theorem getElem?_replenish (q : Nat) (t : List proc) (i : Nat) :
    (replenish q t)[i]? = t[i]?.map (fun p =>
      if p.state = RUNNABLE ∧ p.timeslice = 0 then { p with timeslice := epochBudget q }
      else p) := by
  simp [replenish]

theorem updateNextEpoch_three (t : List proc) :
    updateNextEpoch t 3 [0, 1, 1, 1] 0 = some (replenish 3 t, [0, 1, 1, 0], 0) := by
  simp [updateNextEpoch]

theorem updateNextEpoch_two (t : List proc) :
    updateNextEpoch t 2 [0, 1, 1, 0] 0 = some (replenish 2 t, [0, 1, 0, 0], 0) := by
  simp [updateNextEpoch]

theorem updateNextEpoch_one (t : List proc) :
    updateNextEpoch t 1 [0, 1, 0, 0] 0 = some (replenish 1 t, [0, 0, 0, 0], 0) := by
  simp [updateNextEpoch]

theorem updateNextEpoch_zero (t : List proc) :
    updateNextEpoch t 0 [0, 0, 0, 0] 0 = some (t, [0, 0, 0, 0], 0) := by
  simp [updateNextEpoch]

theorem replenish_fixed (q : Nat) (t : List proc)
    (h : ∀ p ∈ t, ¬ (p.state = RUNNABLE ∧ p.timeslice = 0)) : replenish q t = t := by
  unfold replenish
  conv_rhs => rw [← List.map_id t]
  apply List.map_congr_left
  intro p hp
  simp [h p hp]

theorem replenish_three_clean (t : List proc) :
    ∀ p ∈ replenish 3 t, ¬ (p.state = RUNNABLE ∧ p.timeslice = 0) := by
  intro p hp
  obtain ⟨p0, -, rfl⟩ := List.mem_map.mp hp
  by_cases h : p0.state = RUNNABLE ∧ p0.timeslice = 0
  · simp [h, epochBudget]
  · simp [h]

theorem replenish_replenish (q : Nat) (t : List proc) :
    replenish q (replenish 3 t) = replenish 3 t :=
  replenish_fixed q _ (replenish_three_clean t)

/-- The four levels of `getNextProcessToRun` spelled out: the only table it ever produces
besides the input is the input with every RUNNABLE slot of timeslice 0 set to 8. -/
theorem getNextProcessToRun_eq (t : List proc) :
    getNextProcessToRun t =
      match firstSlot (selectable 3) t with
      | some i => some (some i, t)
      | none =>
        match firstSlot (selectable 2) (replenish 3 t) with
        | some i => some (some i, replenish 3 t)
        | none =>
          match firstSlot (selectable 1) (replenish 3 t) with
          | some i => some (some i, replenish 3 t)
          | none =>
            match firstSlot (selectable 0) (replenish 3 t) with
            | some i => some (some i, replenish 3 t)
            | none => some (none, replenish 3 t) := by
  simp only [getNextProcessToRun, levelLoop, scanLevel_zero, List.getD_cons_succ,
    List.getD_cons_zero, Nat.cast_ofNat, Nat.cast_one, Nat.cast_zero]
  cases firstSlot (selectable 3) t with
  | some i => rfl
  | none =>
    simp only [updateNextEpoch_three, ne_eq, not_true_eq_false, if_false]
    cases firstSlot (selectable 2) (replenish 3 t) with
    | some i => rfl
    | none =>
      simp only [updateNextEpoch_two, ne_eq, not_true_eq_false, if_false, replenish_replenish]
      cases firstSlot (selectable 1) (replenish 3 t) with
      | some i => rfl
      | none =>
        simp only [updateNextEpoch_one, ne_eq, not_true_eq_false, if_false,
          replenish_replenish]
        cases firstSlot (selectable 0) (replenish 3 t) with
        | some i => rfl
        | none =>
          simp only [updateNextEpoch_zero, ne_eq, not_true_eq_false, if_false]

theorem replenish_selectable {q : Int} (hq : q ≠ 0) {t : List proc} {i : Nat} {p : proc}
    (hp : (replenish 3 t)[i]? = some p) (hs : selectable q p = true) :
    ∃ p0, t[i]? = some p0 ∧ p0.state = RUNNABLE ∧ p0.priority = q ∧
      (0 < p0.timeslice ∨ p0.timeslice = 0) := by
  rw [getElem?_replenish] at hp
  rw [selectable_pos hq] at hs
  cases h0 : t[i]? with
  | none => simp [h0] at hp
  | some p0 =>
    simp only [h0, Option.map_some', Option.some.injEq] at hp
    refine ⟨p0, rfl, ?_⟩
    by_cases hc : p0.state = RUNNABLE ∧ p0.timeslice = 0
    · rw [if_pos hc] at hp
      subst hp
      exact ⟨hc.1, hs.2.2, Or.inr hc.2⟩
    · rw [if_neg hc] at hp
      subst hp
      exact ⟨hs.1, hs.2.2, Or.inl hs.2.1⟩

/-- Claim C1 (amended).  If some RUNNABLE slot with priority in 1..3 has a positive
timeslice and `h` is the highest such priority, `getNextProcessToRun` returns a slot (never
`NULL`) that, in the table it leaves, is RUNNABLE with a positive timeslice and has a
priority from `h` to 3, so never a lower one.  The priority is exactly `h` when no RUNNABLE
slot of a level above `h` has timeslice 0; such a slot is replenished by the call and can be
the one returned.  When `h = 3` the slot is the lowest-index RUNNABLE priority-3 slot with
budget and the table is unchanged. -/
theorem getNextProcessToRun_selects (t : List proc) (h : Int) (pj : proc)
    (hmem : pj ∈ t) (hrun : pj.state = RUNNABLE) (hprio : pj.priority = h)
    (hts : 0 < pj.timeslice) (hlo : 1 ≤ h) (hhi : h ≤ 3)
    (hmax : ∀ q ∈ t, q.state = RUNNABLE → 0 < q.timeslice → 1 ≤ q.priority →
      q.priority ≤ 3 → q.priority ≤ h) :
    ∃ (i : Nat) (t1 : List proc) (p : proc),
      getNextProcessToRun t = some (some i, t1) ∧ t1[i]? = some p ∧
      p.state = RUNNABLE ∧ 0 < p.timeslice ∧ h ≤ p.priority ∧ p.priority ≤ 3 ∧
      ((∀ q ∈ t, q.state = RUNNABLE → q.timeslice = 0 → ¬ (h < q.priority ∧ q.priority ≤ 3)) →
        p.priority = h) ∧
      (h = 3 → t1 = t ∧ ∀ (k : Nat) (q : proc), k < i → t[k]? = some q →
        ¬ (q.state = RUNNABLE ∧ 0 < q.timeslice ∧ q.priority = 3)) := by
  have hsel : selectable h pj = true := by
    rw [selectable_pos (by omega)]; exact ⟨hrun, hts, hprio⟩
  have hj1 : pj ∈ replenish 3 t := mem_replenish_of_pos hmem hts
  rw [getNextProcessToRun_eq]
  cases h3 : firstSlot (selectable 3) t with
  | some i =>
    obtain ⟨p, hp, hc, hmin⟩ := firstSlot_some h3
    rw [selectable_pos (by norm_num)] at hc
    obtain ⟨hr, ht, hq⟩ := hc
    have hle := hmax p (List.getElem?_mem hp) hr ht (by omega) (by omega)
    refine ⟨i, t, p, rfl, hp, hr, ht, by omega, by omega, fun _ => by omega, fun _ => ⟨rfl, ?_⟩⟩
    intro k q hk hkq hcontra
    have := hmin k q hk hkq
    rw [← Bool.not_eq_true] at this
    apply this
    rw [selectable_pos (by norm_num)]
    exact hcontra
  | none =>
    have hne3 : h ≠ 3 := by
      rintro rfl
      rw [firstSlot_none] at h3
      rw [h3 pj hmem] at hsel
      cases hsel
    cases h2 : firstSlot (selectable 2) (replenish 3 t) with
    | some i =>
      obtain ⟨p, hp, hc, -⟩ := firstSlot_some h2
      obtain ⟨p0, hp0, hr0, hq0, hts0⟩ := replenish_selectable (by norm_num) hp hc
      rw [selectable_pos (by norm_num)] at hc
      obtain ⟨hr, ht, hq⟩ := hc
      refine ⟨i, replenish 3 t, p, rfl, hp, hr, ht, by omega, by omega, ?_, fun h3 => absurd h3 hne3⟩
      intro hcond
      have hm0 := List.getElem?_mem hp0
      rcases hts0 with hpos | hzero
      · have := hmax p0 hm0 hr0 hpos (by omega) (by omega)
        omega
      · by_contra hne
        exact hcond p0 hm0 hr0 hzero ⟨by omega, by omega⟩
    | none =>
      have hne2 : h ≠ 2 := by
        rintro rfl
        rw [firstSlot_none] at h2
        rw [h2 pj hj1] at hsel
        cases hsel
      have h1 : h = 1 := by omega
      subst h1
      obtain ⟨i, hi⟩ := firstSlot_of_mem _ hj1 hsel
      obtain ⟨p, hp, hc, -⟩ := firstSlot_some hi
      rw [selectable_pos (by norm_num)] at hc
      obtain ⟨hr, ht, hq⟩ := hc
      simp only [hi]
      exact ⟨i, replenish 3 t, p, rfl, hp, hr, ht, by omega, by omega, fun _ => hq,
        fun h3 => absurd h3 hne3⟩



/-- Witness for C1: the amended statement at the table `exhaustedAbove` with `h = 1`. -/
theorem getNextProcessToRun_selects_witness :
    ∃ (i : Nat) (t1 : List proc) (p : proc),
      getNextProcessToRun exhaustedAbove = some (some i, t1) ∧ t1[i]? = some p ∧
      p.state = RUNNABLE ∧ 0 < p.timeslice ∧ (1 : Int) ≤ p.priority ∧ p.priority ≤ 3 ∧
      ((∀ q ∈ exhaustedAbove, q.state = RUNNABLE → q.timeslice = 0 →
          ¬ ((1 : Int) < q.priority ∧ q.priority ≤ 3)) → p.priority = 1) ∧
      ((1 : Int) = 3 → t1 = exhaustedAbove ∧ ∀ (k : Nat) (q : proc), k < i →
        exhaustedAbove[k]? = some q →
        ¬ (q.state = RUNNABLE ∧ 0 < q.timeslice ∧ q.priority = 3)) :=
  getNextProcessToRun_selects exhaustedAbove 1 (slotWith RUNNABLE 1 5) (by decide) (by decide)
    (by decide) (by decide) (by decide) (by decide) (by decide)

/-- Counterexample to C1 as stated.  In `exhaustedAbove` the highest priority with a RUNNABLE
slot of positive timeslice is 1, yet no slot of priority 1 is returned: the call replenishes
the exhausted priority-2 slot and returns it. -/
theorem getNextProcessToRun_not_exactly_highest :
    (∃ p ∈ exhaustedAbove, p.state = RUNNABLE ∧ p.priority = 1 ∧ 0 < p.timeslice) ∧
    (∀ q ∈ exhaustedAbove, q.state = RUNNABLE → 0 < q.timeslice → 1 ≤ q.priority →
      q.priority ≤ 3 → q.priority ≤ 1) ∧
    ¬ ∃ i t1 p, getNextProcessToRun exhaustedAbove = some (some i, t1) ∧ t1[i]? = some p ∧
      p.state = RUNNABLE ∧ 0 < p.timeslice ∧ p.priority = 1 := by
  refine ⟨by decide, by decide, ?_⟩
  rintro ⟨i, t1, p, heq, hp, -, -, hprio⟩
  have hval : getNextProcessToRun exhaustedAbove =
      some (some 1, [slotWith RUNNABLE 1 5, slotWith RUNNABLE 2 8]) := by decide
  rw [hval] at heq
  simp only [Option.some.injEq, Prod.mk.injEq] at heq
  obtain ⟨rfl, rfl⟩ := heq
  simp only [List.getElem?_cons_succ, List.getElem?_cons_zero, Option.some.injEq] at hp
  subst hp
  simp [slotWith] at hprio



theorem getNextProcessToRun_table (t : List proc) :
    ∃ r, getNextProcessToRun t = some (r, t) ∨ getNextProcessToRun t = some (r, replenish 3 t) := by
  rw [getNextProcessToRun_eq]
  cases firstSlot (selectable 3) t with
  | some i => exact ⟨_, Or.inl rfl⟩
  | none =>
    cases firstSlot (selectable 2) (replenish 3 t) with
    | some i => exact ⟨_, Or.inr rfl⟩
    | none =>
      cases firstSlot (selectable 1) (replenish 3 t) with
      | some i => exact ⟨_, Or.inr rfl⟩
      | none =>
        cases firstSlot (selectable 0) (replenish 3 t) with
        | some i => exact ⟨_, Or.inr rfl⟩
        | none => exact ⟨_, Or.inr rfl⟩

theorem getNextProcessToRun_epoch {t : List proc} (h : firstSlot (selectable 3) t = none) :
    ∃ r, getNextProcessToRun t = some (r, replenish 3 t) := by
  rw [getNextProcessToRun_eq, h]
  cases firstSlot (selectable 2) (replenish 3 t) with
  | some i => exact ⟨_, rfl⟩
  | none =>
    cases firstSlot (selectable 1) (replenish 3 t) with
    | some i => exact ⟨_, rfl⟩
    | none =>
      cases firstSlot (selectable 0) (replenish 3 t) with
      | some i => exact ⟨_, rfl⟩
      | none => exact ⟨_, rfl⟩

/-- Claim C2 (amended).  For a level `L` in 1..3 whose RUNNABLE slots all have timeslice 0,
with no RUNNABLE slot of a higher level holding budget, one call of `getNextProcessToRun`
gives every such slot a positive timeslice and changes no other field of it; for `L = 3` the
new timeslice is 8, the value of `((32 / 3) < 16) ? 8 : (32 / 3)`, and not `max(8, 32/3)`. -/
theorem getNextProcessToRun_replenishes (t : List proc) (L : Int) (hL1 : 1 ≤ L) (hL3 : L ≤ 3)
    (hall : ∀ p ∈ t, p.state = RUNNABLE → p.priority = L → p.timeslice = 0)
    (hhigher : ∀ p ∈ t, p.state = RUNNABLE → L < p.priority → p.priority ≤ 3 →
      ¬ 0 < p.timeslice) :
    ∃ r t1, getNextProcessToRun t = some (r, t1) ∧ t1.length = t.length ∧
      ∀ (i : Nat) (p : proc), t[i]? = some p → p.state = RUNNABLE → p.priority = L →
        ∃ b : Int, t1[i]? = some ({ p with timeslice := b } : proc) ∧ 0 < b ∧ (L = 3 → b = 8) := by
  have h3 : firstSlot (selectable 3) t = none := by
    rw [firstSlot_none]
    intro p hp
    rw [← Bool.not_eq_true, selectable_pos (by norm_num)]
    rintro ⟨hr, ht, hq⟩
    by_cases hL : L = 3
    · have := hall p hp hr (by omega); omega
    · exact hhigher p hp hr (by omega) (by omega) ht
  obtain ⟨r, hr⟩ := getNextProcessToRun_epoch h3
  refine ⟨r, replenish 3 t, hr, by simp [replenish], ?_⟩
  intro i p hp hrun hprio
  have hz := hall p (List.getElem?_mem hp) hrun hprio
  refine ⟨8, ?_, by norm_num, fun _ => rfl⟩
  rw [getElem?_replenish, hp]
  simp [hrun, hz, epochBudget]

/-- Witness for C2: the amended statement at the table `exhaustedTop` with `L = 3`. -/
theorem getNextProcessToRun_replenishes_witness :
    ∃ r t1, getNextProcessToRun exhaustedTop = some (r, t1) ∧ t1.length = exhaustedTop.length ∧
      ∀ (i : Nat) (p : proc), exhaustedTop[i]? = some p → p.state = RUNNABLE → p.priority = 3 →
        ∃ b : Int, t1[i]? = some ({ p with timeslice := b } : proc) ∧ 0 < b ∧ ((3 : Int) = 3 → b = 8) :=
  getNextProcessToRun_replenishes exhaustedTop 3 (by decide) (by decide) (by decide) (by decide)

/-- Counterexample to C2 as stated.  The only slot of `exhaustedTop` is RUNNABLE at level 3
with timeslice 0; after one call its timeslice is 8, while `max(8, 32/3)` is 10. -/
theorem replenish_top_level_is_eight :
    (∃ p ∈ exhaustedTop, p.state = RUNNABLE ∧ p.priority = 3) ∧
    (∀ p ∈ exhaustedTop, p.state = RUNNABLE → p.priority = 3 → p.timeslice = 0) ∧
    max (8 : Int) (((32 / 3 : Nat) : Int)) = 10 ∧
    ∃ r t1, getNextProcessToRun exhaustedTop = some (r, t1) ∧
      ∃ p, t1[0]? = some p ∧ p.timeslice = 8 ∧
        p.timeslice ≠ max (8 : Int) (((32 / 3 : Nat) : Int)) := by
  refine ⟨by decide, by decide, by decide, none, [slotWith RUNNABLE 3 8], by decide,
    slotWith RUNNABLE 3 8, by decide, by decide, by decide⟩

/-- Claim C3 evaluated on `twoReady` (slots 0 and 1 RUNNABLE at priority 2 with budget, no
RUNNABLE slot at priority 3).  The first call returns slot 0.  After slot 0 has been dispatched
and has yielded, both slots are still RUNNABLE with budget at priority 2, and the next call
returns slot 0 again, not slot 1: the cursor array is a local that is zeroed on every call. -/
theorem getNextProcessToRun_cursor_not_kept :
    ∃ s0, twoReady = some s0 ∧
      (s0.slot 0).state = RUNNABLE ∧ (s0.slot 0).priority = 2 ∧ 0 < (s0.slot 0).timeslice ∧
      (s0.slot 1).state = RUNNABLE ∧ (s0.slot 1).priority = 2 ∧ 0 < (s0.slot 1).timeslice ∧
      (getNextProcessToRun s0.ptable).map (·.1) = some (some 0) ∧
      ∃ s, schedulerStep s0 0 = some s ∧ s.cproc = some 0 ∧ (s.slot 0).state = RUNNING ∧
        ((yield s 0).slot 0).state = RUNNABLE ∧ ((yield s 0).slot 0).priority = 2 ∧
        0 < ((yield s 0).slot 0).timeslice ∧
        ((yield s 0).slot 1).state = RUNNABLE ∧ ((yield s 0).slot 1).priority = 2 ∧
        0 < ((yield s 0).slot 1).timeslice ∧
        (getNextProcessToRun (yield s 0).ptable).map (·.1) = some (some 0) := by
  refine ⟨twoReady.getD (boot 0 0), by decide, by decide, by decide, by decide, by decide,
    by decide, by decide, by decide,
    (schedulerStep (twoReady.getD (boot 0 0)) 0).getD (boot 0 0), by decide, by decide,
    by decide, by decide, by decide, by decide, by decide, by decide, by decide, by decide⟩

/-! ## Tick accounting and allocation -/

/-- Claim C4.  One call of `updateFields` keeps the number of slots, and every slot afterwards
is the slot before with `elapsed` one larger iff its state is not ZOMBIE, `retime` one larger
iff its state is RUNNABLE, `stime` one larger iff its state is SLEEPING, and every other
field (`rutime`, `state`, `priority`, `timeslice`, `pid`, ...) unchanged. -/
theorem updateFields_slot (t : List proc) :
    (updateFields t).length = t.length ∧
    ∀ i : Nat, (updateFields t)[i]? = t[i]?.map (fun p : proc =>
      ({ p with elapsed := if p.state ≠ ZOMBIE then p.elapsed + 1 else p.elapsed,
                retime := if p.state = RUNNABLE then p.retime + 1 else p.retime,
                stime := if p.state = SLEEPING then p.stime + 1 else p.stime } : proc)) := by
  refine ⟨by simp [updateFields], fun i => ?_⟩
  simp only [updateFields, List.getElem?_map]
  cases t[i]? with
  | none => rfl
  | some p =>
    simp only [Option.map_some', Option.some.injEq]
    obtain ⟨sz, pgdir, kstack, state, pid, parent, chan, killed, ofile, cwd, name, ctime, stime,
      retime, rutime, elapsed, priority, timeslice⟩ := p
    cases state <;> simp [tickSlot]



/-- Claim C5 evaluated on the run `fourDispatches`: the init process is allocated and made
RUNNABLE, then dispatched four times with a sleep and a wakeup between the dispatches and no
timer tick.  Its `rutime` is 4 while `retime`, `stime` and `elapsed` are 0, so
`retime + rutime + stime` exceeds `elapsed + 3`. -/
theorem rutime_outruns_elapsed :
    fourDispatches.map (fun s => s.ptable.map
      (fun p => (p.state, p.retime, p.rutime, p.stime, p.elapsed)))
      = some [(RUNNING, 0, 4, 0, 0)] ∧
    ¬ ((0 : Int) + 4 + 0 ≤ 0 + 3) := by
  refine ⟨by decide, by decide⟩

/-- Claim C6 evaluated on `tickedInit`: after one timer tick the never-allocated slot 1 is
UNUSED with `elapsed = 1`.  `allocproc` then returns slot 1 in state EMBRYO with the previous
`nextpid` as pid, `ctime` the current tick, `retime = rutime = stime = 0`, priority 2 and
timeslice 16, but `elapsed` keeps the value 1. -/
theorem allocproc_keeps_elapsed :
    ∃ s, tickedInit = some s ∧ (s.slot 1).state = UNUSED ∧ (s.slot 1).elapsed = 1 ∧
      (allocproc s 1 (some 9)).2 = some 1 ∧
      ((allocproc s 1 (some 9)).1.slot 1).state = EMBRYO ∧
      ((allocproc s 1 (some 9)).1.slot 1).pid = s.nextpid ∧
      ((allocproc s 1 (some 9)).1.slot 1).ctime = 1 ∧
      ((allocproc s 1 (some 9)).1.slot 1).retime = 0 ∧
      ((allocproc s 1 (some 9)).1.slot 1).rutime = 0 ∧
      ((allocproc s 1 (some 9)).1.slot 1).stime = 0 ∧
      ((allocproc s 1 (some 9)).1.slot 1).priority = 2 ∧
      ((allocproc s 1 (some 9)).1.slot 1).timeslice = 16 ∧
      ((allocproc s 1 (some 9)).1.slot 1).elapsed = 1 := by
  refine ⟨tickedInit.getD (boot 0 0), ?_⟩
  decide

/-- Claim C7 evaluated on two failures.  From the zero-initialised table, `allocproc` with a
failing `kalloc` leaves slot 0 UNUSED with pid 1; after `userinit`, a `fork` whose `copyuvm`
fails returns -1 and leaves slot 1 UNUSED with pid 2. -/
theorem failed_allocation_keeps_pid :
    (allocproc (boot 1 0) 0 none).2 = none ∧
    ((allocproc (boot 1 0) 0 none).1.slot 0).state = UNUSED ∧
    ((allocproc (boot 1 0) 0 none).1.slot 0).pid = 1 ∧
    (fork initOfTwo 0 0 (some 5) none).2 = -1 ∧
    ((fork initOfTwo 0 0 (some 5) none).1.slot 1).state = UNUSED ∧
    ((fork initOfTwo 0 0 (some 5) none).1.slot 1).pid = 2 := by
  decide



/-! ## Pids stay below `nextpid` -/

theorem forall_modifySlot {P : proc → Prop} {t : List proc} (f : proc → proc) (i : Nat)
    (ht : ∀ p ∈ t, P p) (hf : ∀ p ∈ t, P (f p)) : ∀ p ∈ modifySlot f t i, P p := by
  induction t generalizing i with
  | nil => simp [modifySlot]
  | cons a as ih =>
    cases i with
    | zero =>
      intro p hp
      simp only [modifySlot, List.mem_cons] at hp
      rcases hp with rfl | hp
      · exact hf a (by simp)
      · exact ht p (by simp [hp])
    | succ i =>
      intro p hp
      simp only [modifySlot, List.mem_cons] at hp
      rcases hp with rfl | hp
      · exact ht p (by simp)
      · exact ih i (fun q hq => ht q (by simp [hq])) (fun q hq => hf q (by simp [hq])) p hp

theorem forall_map {P : proc → Prop} {t : List proc} (f : proc → proc)
    (hf : ∀ p ∈ t, P (f p)) : ∀ p ∈ t.map f, P p := by
  intro p hp
  obtain ⟨q, hq, rfl⟩ := List.mem_map.mp hp
  exact hf q hq

theorem pid_wakeup1 {n : Int} {t : List proc} (chan : Chan) (ht : ∀ p ∈ t, p.pid < n) :
    ∀ p ∈ wakeup1 chan t, p.pid < n := by
  apply forall_map
  intro p hp
  by_cases h : p.state = SLEEPING ∧ p.chan = chan
  · simpa [h] using ht p hp
  · simpa [h] using ht p hp

theorem pid_replenish {n : Int} {t : List proc} (q : Nat) (ht : ∀ p ∈ t, p.pid < n) :
    ∀ p ∈ replenish q t, p.pid < n := by
  apply forall_map
  intro p hp
  by_cases h : p.state = RUNNABLE ∧ p.timeslice = 0
  · simpa [h] using ht p hp
  · simpa [h] using ht p hp

theorem pid_reparent {n : Int} (c : Nat) (ip : Option Nat) :
    ∀ (k i : Nat) (t : List proc), (∀ p ∈ t, p.pid < n) →
      ∀ p ∈ reparent c ip k i t, p.pid < n := by
  intro k
  induction k with
  | zero => intro i t ht; simpa [reparent] using ht
  | succ k ih =>
    intro i t ht
    simp only [reparent]
    have h1 : ∀ p ∈ modifySlot (fun q => { q with parent := ip }) t i, p.pid < n :=
      forall_modifySlot _ i ht (fun p hp => ht p hp)
    split
    · split
      · exact ih _ _ (pid_wakeup1 _ h1)
      · exact ih _ _ h1
    · exact ih _ _ ht

theorem pidsBelow_modify {s s1 : Kernel} (h : pidsBelow s) (f : proc → proc) (i : Nat)
    (hn : s1.nextpid = s.nextpid) (ht : s1.ptable = modifySlot f s.ptable i)
    (hf : ∀ p, (f p).pid = p.pid) : pidsBelow s1 := by
  refine ⟨by rw [hn]; exact h.1, ?_⟩
  rw [hn, ht]
  exact forall_modifySlot f i h.2 (fun p hp => by rw [hf]; exact h.2 p hp)

theorem pidsBelow_allocproc {s : Kernel} (ticks : Nat) (kalloc : Option Nat) (h : pidsBelow s) :
    pidsBelow (allocproc s ticks kalloc).1 := by
  unfold allocproc
  have hlt : ∀ p ∈ s.ptable, p.pid < s.nextpid + 1 := fun p hp => by
    have := h.2 p hp; omega
  have hfound : ∀ i, ∀ p ∈ modifySlot (claimSlot s.nextpid ticks) s.ptable i,
      p.pid < s.nextpid + 1 := fun i =>
    forall_modifySlot _ i hlt (fun p _ => by simp [claimSlot])
  cases firstSlot (fun p => decide (p.state = UNUSED)) s.ptable with
  | none => exact h
  | some i =>
    cases kalloc with
    | none =>
      exact ⟨by have := h.1; simp only; omega,
        forall_modifySlot _ i (hfound i) (fun p hp => hfound i p hp)⟩
    | some a =>
      exact ⟨by have := h.1; simp only; omega,
        forall_modifySlot _ i (hfound i) (fun p hp => hfound i p hp)⟩

theorem pidsBelow_getNext {s : Kernel} {r : Option Nat} {t : List proc}
    (hg : getNextProcessToRun s.ptable = some (r, t)) (h : pidsBelow s) :
    ∀ p ∈ t, p.pid < s.nextpid := by
  obtain ⟨r1, h1 | h1⟩ := getNextProcessToRun_table s.ptable
  · rw [h1] at hg
    simp only [Option.some.injEq, Prod.mk.injEq] at hg
    rw [← hg.2]; exact h.2
  · rw [h1] at hg
    simp only [Option.some.injEq, Prod.mk.injEq] at hg
    rw [← hg.2]; exact pid_replenish 3 h.2

theorem pidsBelow_step {s s1 : Kernel} (hstep : Step s s1) (h : pidsBelow s) : pidsBelow s1 := by
  cases hstep with
  | allocproc ticks kalloc => exact pidsBelow_allocproc ticks kalloc h
  | userinit _ ticks kalloc setupkvm namei pgsize hu =>
    unfold userinit at hu
    have ha := pidsBelow_allocproc ticks kalloc h
    revert hu ha
    rcases allocproc s ticks kalloc with ⟨s2, _ | i⟩
    · intro hu; cases hu
    · cases setupkvm with
      | none => intro hu; cases hu
      | some pg =>
        intro hu ha
        simp only [Option.some.injEq] at hu
        subst hu
        exact pidsBelow_modify ha _ i rfl rfl (fun p => rfl)
  | growproc c n vm =>
    unfold growproc
    split
    · exact h
    · exact pidsBelow_modify h _ c rfl rfl (fun p => rfl)
  | fork c ticks kalloc copyuvm =>
    unfold fork
    have ha := pidsBelow_allocproc ticks kalloc h
    revert ha
    rcases allocproc s ticks kalloc with ⟨s2, _ | i⟩
    · exact fun ha => ha
    · cases copyuvm with
      | none => exact fun ha => pidsBelow_modify ha _ i rfl rfl (fun p => rfl)
      | some pg => exact fun ha => pidsBelow_modify ha _ i rfl rfl (fun p => rfl)
  | exit s2 c he =>
    unfold exit at he
    split at he
    · cases he
    · simp only [Option.some.injEq] at he
      subst he
      have h0 : ∀ p ∈ modifySlot
          (fun p => { p with ofile := p.ofile.map (fun _ => none), cwd := none }) s.ptable c,
          p.pid < s.nextpid := forall_modifySlot _ c h.2 (fun p hp => h.2 p hp)
      refine ⟨h.1, forall_modifySlot _ c ?_ ?_⟩
      · apply pid_reparent; apply pid_wakeup1; exact h0
      · apply pid_reparent; apply pid_wakeup1; exact h0
  | wait c =>
    unfold wait
    split
    · exact ⟨h.1, forall_modifySlot _ _ h.2 (fun p _ => by have := h.1; simp only [reap]; omega)⟩
    · split
      · exact h
      · exact pidsBelow_modify h _ c rfl rfl (fun p => rfl)
  | wait2 c out =>
    unfold wait2
    split
    · exact ⟨h.1, forall_modifySlot _ _ h.2 (fun p _ => by have := h.1; simp only [reap]; omega)⟩
    · split
      · exact h
      · exact pidsBelow_modify h _ c rfl rfl (fun p => rfl)
  | kill pid =>
    unfold kill
    split
    · exact pidsBelow_modify h _ _ rfl rfl (fun p => rfl)
    · exact h
  | scheduler _ p hs =>
    unfold schedulerStep at hs
    split at hs
    · simp only [Option.some.injEq] at hs; subst hs; exact h
    · split at hs
      · cases hs
      · rename_i p1 t hg
        simp only [Option.some.injEq] at hs
        subst hs
        have ht := pidsBelow_getNext hg h
        exact ⟨h.1, forall_modifySlot _ _ ht (fun q hq => ht q hq)⟩
  | set_priority c prio => exact pidsBelow_modify h _ c rfl rfl (fun p => rfl)
  | yield c => exact pidsBelow_modify h _ c rfl rfl (fun p => rfl)
  | sleep c chan => exact pidsBelow_modify h _ c rfl rfl (fun p => rfl)
  | sleepReturn c => exact pidsBelow_modify h _ c rfl rfl (fun p => rfl)
  | wakeup chan => exact ⟨h.1, pid_wakeup1 chan h.2⟩
  | tick =>
    refine ⟨h.1, forall_map _ (fun p hp => ?_)⟩
    have := h.2 p hp
    obtain ⟨sz, pgdir, kstack, state, pid, parent, chan, killed, ofile, cwd, name, ctime, stime,
      retime, rutime, elapsed, priority, timeslice⟩ := p
    cases state <;> simpa [tickSlot] using this

theorem pidsBelow_reachable {nproc nofile : Nat} {s : Kernel} (h : Reachable nproc nofile s) :
    pidsBelow s := by
  induction h with
  | boot =>
    refine ⟨by simp [boot], ?_⟩
    intro p hp
    simp only [boot, List.mem_replicate] at hp
    rw [hp.2]; simp [procZero, boot]
  | step s s1 _ hstep ih => exact pidsBelow_step hstep ih



/-! ## fork -/

theorem allocproc_some {s s1 : Kernel} {ticks : Nat} {kalloc : Option Nat} {i : Nat}
    (h : allocproc s ticks kalloc = (s1, some i)) :
    ∃ a p, kalloc = some a ∧ s.ptable[i]? = some p ∧ p.state = UNUSED ∧
      (∀ (k : Nat) (q : proc), k < i → s.ptable[k]? = some q → q.state ≠ UNUSED) ∧
      s1.nextpid = s.nextpid + 1 ∧ s1.initproc = s.initproc ∧ s1.cproc = s.cproc ∧
      ∀ j : Nat, s1.ptable[j]? =
        if j = i then some ({ claimSlot s.nextpid ticks p with kstack := some a } : proc)
        else s.ptable[j]? := by
  unfold allocproc at h
  cases hf : firstSlot (fun p => decide (p.state = UNUSED)) s.ptable with
  | none => simp [hf] at h
  | some i0 =>
    obtain ⟨p, hp, hc, hmin⟩ := firstSlot_some hf
    cases kalloc with
    | none => simp [hf] at h
    | some a =>
      simp only [hf, Prod.mk.injEq, Option.some.injEq] at h
      obtain ⟨rfl, rfl⟩ := h
      refine ⟨a, p, rfl, hp, by simpa using hc, ?_, rfl, rfl, rfl, ?_⟩
      · intro k q hk hq
        simpa using hmin k q hk hq
      · intro j
        simp only [getElem?_modifySlot]
        by_cases hj : j = i0
        · subst hj; simp [hp]
        · simp [hj]

/-- Claim C8.  In every state reachable from the zero-initialised table with `nextpid = 1`, a
`fork` by the process in slot `c` that returns a value `k` other than -1 leaves exactly one
slot with pid `k`; that slot has `parent = c` and state RUNNABLE, `k` is the value of
`nextpid` before the call, and `nextpid` is larger afterwards. -/
theorem fork_round_trip (nproc nofile : Nat) (s : Kernel) (hs : Reachable nproc nofile s)
    (c ticks : Nat) (kalloc copyuvm : Option Nat)
    (hk : (fork s c ticks kalloc copyuvm).2 ≠ -1) :
    ∃ (i : Nat) (p : proc), (fork s c ticks kalloc copyuvm).1.ptable[i]? = some p ∧
      p.pid = (fork s c ticks kalloc copyuvm).2 ∧ p.parent = some c ∧ p.state = RUNNABLE ∧
      (∀ (j : Nat) (q : proc), (fork s c ticks kalloc copyuvm).1.ptable[j]? = some q →
        q.pid = (fork s c ticks kalloc copyuvm).2 → j = i) ∧
      (fork s c ticks kalloc copyuvm).2 = s.nextpid ∧
      s.nextpid < (fork s c ticks kalloc copyuvm).1.nextpid := by
  have hinv := pidsBelow_reachable hs
  rcases ha : allocproc s ticks kalloc with ⟨s1, _ | np⟩
  · exact absurd (by simp [fork, ha]) hk
  · obtain ⟨a, p, -, hp, -, -, hn, -, -, htab⟩ := allocproc_some ha
    cases copyuvm with
    | none => exact absurd (by simp [fork, ha]) hk
    | some pg =>
      have hnp : s1.ptable[np]? =
          some ({ claimSlot s.nextpid ticks p with kstack := some a } : proc) := by
        rw [htab np]; simp
      have hpid : (s1.slot np).pid = s.nextpid := by
        simp [Kernel.slot, hnp, claimSlot]
      simp only [fork, ha, hpid]
      refine ⟨np, ?_⟩
      simp only [getElem?_modifySlot, if_true, hnp, Option.map_some', Option.some.injEq,
        exists_eq_left']
      refine ⟨by simp [claimSlot], trivial, trivial, ?_, trivial, by rw [hn]; omega⟩
      intro j q hq hqpid
      by_contra hne
      simp only [if_neg hne, htab j] at hq
      have := hinv.2 q (List.getElem?_mem hq)
      omega



/-- Witness for C8: the init process of a two-slot table forks its first child. -/
theorem fork_round_trip_witness :
    ∃ (i : Nat) (p : proc), (fork initOfTwo 0 0 (some 5) (some 6)).1.ptable[i]? = some p ∧
      p.pid = (fork initOfTwo 0 0 (some 5) (some 6)).2 ∧ p.parent = some 0 ∧
      p.state = RUNNABLE ∧
      (∀ (j : Nat) (q : proc), (fork initOfTwo 0 0 (some 5) (some 6)).1.ptable[j]? = some q →
        q.pid = (fork initOfTwo 0 0 (some 5) (some 6)).2 → j = i) ∧
      (fork initOfTwo 0 0 (some 5) (some 6)).2 = initOfTwo.nextpid ∧
      initOfTwo.nextpid < (fork initOfTwo 0 0 (some 5) (some 6)).1.nextpid :=
  fork_round_trip 2 0 initOfTwo
    (Reachable.step _ _ Reachable.boot
      (Step.userinit _ _ 0 (some 1) (some 2) (some 3) 4096 (by decide)))
    0 0 (some 5) (some 6) (by decide)

/-! ## wait and wait2 -/

theorem waitScan_eq (c : Nat) (t : List proc) :
    ∀ (i : Nat) (havekids : Bool), waitScan c t i havekids =
      match firstSlot (fun p => p.parent = some c ∧ p.state = ZOMBIE) t with
      | some k => (some (i + k), true)
      | none => (none, havekids || t.any (fun p => p.parent = some c)) := by
  induction t with
  | nil => intro i hk; simp [waitScan, firstSlot]
  | cons a as ih =>
    intro i hk
    simp only [waitScan, firstSlot]
    by_cases hp : a.parent = some c
    · by_cases hz : a.state = ZOMBIE
      · simp [hp, hz]
      · simp only [hp, hz, ne_eq, not_true_eq_false, if_false, and_false, decide_False,
          Bool.false_eq_true, ih]
        cases firstSlot (fun p => decide (p.parent = some c ∧ p.state = ZOMBIE)) as with
        | some k => simp; omega
        | none => simp [hp]
    · simp only [hp, ne_eq, not_false_eq_true, if_true, false_and, decide_False,
        Bool.false_eq_true, if_false, ih]
      cases firstSlot (fun p => decide (p.parent = some c ∧ p.state = ZOMBIE)) as with
      | some k => simp; omega
      | none => simp [hp]



theorem wait_found {s : Kernel} {c i : Nat}
    (h : firstSlot (fun p => p.parent = some c ∧ p.state = ZOMBIE) s.ptable = some i) :
    wait s c = ({ s with ptable := modifySlot reap s.ptable i }, some (s.slot i).pid) := by
  unfold wait
  rw [waitScan_eq, h]
  simp

theorem wait_not_found {s : Kernel} {c : Nat}
    (h : firstSlot (fun p => p.parent = some c ∧ p.state = ZOMBIE) s.ptable = none) :
    wait s c =
      if ¬ (s.ptable.any (fun p => p.parent = some c)) ∨ (s.slot c).killed ≠ 0 then (s, some (-1))
      else (sleep s c (Chan.slot c), none) := by
  unfold wait
  rw [waitScan_eq, h]
  simp

theorem wait2_found {s : Kernel} {c i : Nat} (out : Times)
    (h : firstSlot (fun p => p.parent = some c ∧ p.state = ZOMBIE) s.ptable = some i) :
    wait2 s c out = ({ s with ptable := modifySlot reap s.ptable i }, some (s.slot i).pid,
      { retime := ((modifySlot reap s.ptable i).getD i default).retime,
        rutime := ((modifySlot reap s.ptable i).getD i default).rutime,
        stime := ((modifySlot reap s.ptable i).getD i default).stime,
        elapsed := ((modifySlot reap s.ptable i).getD i default).elapsed }) := by
  unfold wait2
  rw [waitScan_eq, h]
  simp

theorem wait2_not_found {s : Kernel} {c : Nat} (out : Times)
    (h : firstSlot (fun p => p.parent = some c ∧ p.state = ZOMBIE) s.ptable = none) :
    wait2 s c out =
      if ¬ (s.ptable.any (fun p => p.parent = some c)) ∨ (s.slot c).killed ≠ 0 then
        (s, some (-1), out)
      else (sleep s c (Chan.slot c), none, out) := by
  unfold wait2
  rw [waitScan_eq, h]
  simp

/-- Claim C9.  (a) If some slot with `parent = c` is ZOMBIE, `wait` called by `c` returns the
pid of the lowest-index such slot and resets that slot to `pid = 0`, `parent = 0`, empty
name, `killed = 0`, `kstack = 0`, `state = UNUSED`; every other slot, `nextpid`, `initproc`
and `c->proc` are unchanged.  (b) If no slot has `parent = c`, or `c` has children, none of
them ZOMBIE, and `c` is killed, `wait` returns -1 and leaves the state unchanged. -/
theorem wait_spec (s : Kernel) (c : Nat) :
    ((∃ p ∈ s.ptable, p.parent = some c ∧ p.state = ZOMBIE) →
      ∃ (i : Nat) (p : proc), s.ptable[i]? = some p ∧ p.parent = some c ∧ p.state = ZOMBIE ∧
        (∀ (k : Nat) (q : proc), k < i → s.ptable[k]? = some q →
          ¬ (q.parent = some c ∧ q.state = ZOMBIE)) ∧
        (wait s c).2 = some p.pid ∧
        (wait s c).1.ptable[i]? =
          some ({ p with pid := 0, parent := none, name := [], killed := 0, kstack := none,
                         state := UNUSED } : proc) ∧
        (∀ j : Nat, j ≠ i → (wait s c).1.ptable[j]? = s.ptable[j]?) ∧
        (wait s c).1.ptable.length = s.ptable.length ∧
        (wait s c).1.nextpid = s.nextpid ∧ (wait s c).1.initproc = s.initproc ∧
        (wait s c).1.cproc = s.cproc) ∧
    (((∀ p ∈ s.ptable, p.parent ≠ some c) ∨
      ((∃ p ∈ s.ptable, p.parent = some c) ∧
        (∀ p ∈ s.ptable, p.parent = some c → p.state ≠ ZOMBIE) ∧ (s.slot c).killed ≠ 0)) →
      wait s c = (s, some (-1))) := by
  constructor
  · rintro ⟨p0, hp0, hpar, hz⟩
    obtain ⟨i, hi⟩ := firstSlot_of_mem (fun p => p.parent = some c ∧ p.state = ZOMBIE)
      hp0 (by simp [hpar, hz])
    obtain ⟨p, hp, hc, hmin⟩ := firstSlot_some hi
    simp only [decide_eq_true_eq] at hc
    refine ⟨i, p, hp, hc.1, hc.2, ?_, ?_⟩
    · intro k q hk hq
      simpa using hmin k q hk hq
    · rw [wait_found hi]
      refine ⟨by simp [Kernel.slot, hp], ?_, ?_, by simp [length_modifySlot], rfl, rfl, rfl⟩
      · simp [getElem?_modifySlot, hp, reap]
      · intro j hj
        simp [getElem?_modifySlot, hj]
  · intro h
    have hnone : firstSlot (fun p => decide (p.parent = some c ∧ p.state = ZOMBIE)) s.ptable
        = none := by
      rw [firstSlot_none]
      intro p hp
      rcases h with h | ⟨-, h, -⟩
      · simp [h p hp]
      · simp only [decide_eq_false_iff_not, not_and]
        exact fun hpar => h p hp hpar
    rw [wait_not_found hnone]
    rcases h with h | ⟨-, -, hk⟩
    · have : s.ptable.any (fun p => decide (p.parent = some c)) = false := by
        rw [List.any_eq_false]
        intro p hp
        simpa using h p hp
      simp [this]
    · simp [hk]



/-- Witness for C9: in `family` the parent in slot 0 reaps its ZOMBIE child in slot 2, and
in `initOfTwo` the init process, which has no children, gets -1. -/
theorem wait_spec_witness :
    (∃ (i : Nat) (p : proc), family.ptable[i]? = some p ∧ p.parent = some 0 ∧
        p.state = ZOMBIE ∧
        (∀ (k : Nat) (q : proc), k < i → family.ptable[k]? = some q →
          ¬ (q.parent = some 0 ∧ q.state = ZOMBIE)) ∧
        (wait family 0).2 = some p.pid ∧
        (wait family 0).1.ptable[i]? =
          some ({ p with pid := 0, parent := none, name := [], killed := 0, kstack := none,
                         state := UNUSED } : proc) ∧
        (∀ j : Nat, j ≠ i → (wait family 0).1.ptable[j]? = family.ptable[j]?) ∧
        (wait family 0).1.ptable.length = family.ptable.length ∧
        (wait family 0).1.nextpid = family.nextpid ∧
        (wait family 0).1.initproc = family.initproc ∧
        (wait family 0).1.cproc = family.cproc) ∧
    wait initOfTwo 0 = (initOfTwo, some (-1)) :=
  ⟨(wait_spec family 0).1 (by decide), (wait_spec initOfTwo 0).2 (Or.inl (by decide))⟩

/-- Claim C10.  `wait2` leaves the same state and returns the same value as `wait` (both go
to sleep in the same cases).  When it returns a value other than -1, that value is the pid of
a ZOMBIE child of the caller, that child's slot is reaped, and the four cells hold the
child's `retime`, `rutime`, `stime` and `elapsed` from before the call.  When it returns -1,
in a table where -1 is not the pid of any slot, or when it goes to sleep, the four cells are
not written. -/
theorem wait2_agrees_wait (s : Kernel) (c : Nat) (out : Times) :
    (wait2 s c out).1 = (wait s c).1 ∧ (wait2 s c out).2.1 = (wait s c).2 ∧
    (∀ v : Int, (wait2 s c out).2.1 = some v → v ≠ -1 →
      ∃ (i : Nat) (p : proc), s.ptable[i]? = some p ∧ p.parent = some c ∧ p.state = ZOMBIE ∧
        p.pid = v ∧ (wait2 s c out).1.ptable[i]? = some (reap p) ∧
        (wait2 s c out).2.2 =
          { retime := p.retime, rutime := p.rutime, stime := p.stime, elapsed := p.elapsed }) ∧
    ((∀ p ∈ s.ptable, p.pid ≠ -1) → (wait2 s c out).2.1 = some (-1) →
      (wait2 s c out).2.2 = out) ∧
    ((wait2 s c out).2.1 = none → (wait2 s c out).2.2 = out) := by
  cases hf : firstSlot (fun p => decide (p.parent = some c ∧ p.state = ZOMBIE)) s.ptable with
  | some i =>
    obtain ⟨p, hp, hc, -⟩ := firstSlot_some hf
    simp only [decide_eq_true_eq] at hc
    have hslot : (s.slot i).pid = p.pid := by simp [Kernel.slot, hp]
    have hreap : (modifySlot reap s.ptable i)[i]? = some (reap p) := by
      simp [getElem?_modifySlot, hp]
    rw [wait2_found out hf, wait_found hf]
    refine ⟨rfl, rfl, ?_, ?_, ?_⟩
    · intro v hv _
      simp only [Option.some.injEq] at hv
      refine ⟨i, p, hp, hc.1, hc.2, by rw [← hv, hslot], hreap, ?_⟩
      simp [hreap, reap]
    · intro hpid hv
      simp only [Option.some.injEq] at hv
      exact absurd (hslot ▸ hv) (hpid p (List.getElem?_mem hp))
    · intro hv; cases hv
  | none =>
    rw [wait2_not_found out hf, wait_not_found hf]
    split
    · refine ⟨rfl, rfl, ?_, fun _ _ => rfl, fun _ => rfl⟩
      intro v hv hne
      simp only [Option.some.injEq] at hv
      exact absurd hv.symm hne
    · refine ⟨rfl, rfl, ?_, fun _ _ => rfl, fun _ => rfl⟩
      intro v hv
      cases hv

/-- Witness for C10: in `family` the parent in slot 0 gets the counters of its ZOMBIE child,
and in `initOfTwo` the childless init process gets -1 with its cells untouched. -/
theorem wait2_agrees_wait_witness :
    (∃ (i : Nat) (p : proc), family.ptable[i]? = some p ∧ p.parent = some 0 ∧
        p.state = ZOMBIE ∧ p.pid = 3 ∧
        (wait2 family 0 ⟨0, 0, 0, 0⟩).1.ptable[i]? = some (reap p) ∧
        (wait2 family 0 ⟨0, 0, 0, 0⟩).2.2 =
          { retime := p.retime, rutime := p.rutime, stime := p.stime, elapsed := p.elapsed }) ∧
    (wait2 initOfTwo 0 ⟨7, 7, 7, 7⟩).2.2 = ⟨7, 7, 7, 7⟩ :=
  ⟨(wait2_agrees_wait family 0 ⟨0, 0, 0, 0⟩).2.2.1 3 (by decide) (by decide),
   (wait2_agrees_wait initOfTwo 0 ⟨7, 7, 7, 7⟩).2.2.2.1 (by decide) (by decide)⟩



/-! ## kill, wakeup and set_priority -/

/-- Claim C11 evaluated on `initOfTwo` (slot 0 holds init with pid 1, slot 1 is UNUSED with
pid 0).  No allocated slot has pid 0, yet `kill(0)` returns 0 and sets `killed` on the UNUSED
slot 1 instead of returning -1 and leaving the table unchanged. -/
theorem kill_hits_unused_slot :
    (initOfTwo.slot 0).state = RUNNABLE ∧ (initOfTwo.slot 0).pid = 1 ∧
    (initOfTwo.slot 1).state = UNUSED ∧ (initOfTwo.slot 1).pid = 0 ∧
    (initOfTwo.slot 1).killed = 0 ∧ initOfTwo.ptable.length = 2 ∧
    (kill initOfTwo 0).2 = 0 ∧
    ((kill initOfTwo 0).1.slot 1).state = UNUSED ∧
    ((kill initOfTwo 0).1.slot 1).killed = 1 ∧
    (kill initOfTwo 0).1 ≠ initOfTwo := by
  decide

theorem firstSlot_modifySlot (c : proc → Bool) (f : proc → proc) (h : ∀ p, c (f p) = c p)
    (t : List proc) (i : Nat) : firstSlot c (modifySlot f t i) = firstSlot c t := by
  induction t generalizing i with
  | nil => rfl
  | cons a as ih =>
    cases i with
    | zero => simp [modifySlot, firstSlot, h]
    | succ i => simp [modifySlot, firstSlot, ih]

theorem modifySlot_idem (f : proc → proc) (h : ∀ p, f (f p) = f p) (t : List proc) (i : Nat) :
    modifySlot f (modifySlot f t i) i = modifySlot f t i := by
  induction t generalizing i with
  | nil => rfl
  | cons a as ih =>
    cases i with
    | zero => simp [modifySlot, h]
    | succ i => simp [modifySlot, ih]

/-- Claim C12.  Applying `kill(pid)` to the state left by `kill(pid)` gives the same state and
the same return value as the first application. -/
theorem kill_idempotent (s : Kernel) (pid : Int) : kill (kill s pid).1 pid = kill s pid := by
  unfold kill
  cases h : firstSlot (fun p => decide (p.pid = pid)) s.ptable with
  | none => simp [h]
  | some i =>
    simp only []
    rw [firstSlot_modifySlot, h]
    · simp only []
      rw [modifySlot_idem]
      intro p
      by_cases hs : p.state = SLEEPING <;> simp [hs]
    · intro p; rfl

/-- Claim C13.  `wakeup(chan)` keeps the number of slots, `nextpid`, `initproc` and `c->proc`;
a slot that was SLEEPING with `chan` as its channel is the same slot with state RUNNABLE, and
every other slot is unchanged in all fields.  In particular a process of the table that goes
to sleep on `chan` is RUNNABLE right after `wakeup(chan)`. -/
theorem wakeup_spec (s : Kernel) (chan : Chan) :
    (wakeup s chan).ptable.length = s.ptable.length ∧
    (wakeup s chan).nextpid = s.nextpid ∧ (wakeup s chan).initproc = s.initproc ∧
    (wakeup s chan).cproc = s.cproc ∧
    (∀ (i : Nat) (p : proc), s.ptable[i]? = some p →
      (p.state = SLEEPING ∧ p.chan = chan →
        (wakeup s chan).ptable[i]? = some ({ p with state := RUNNABLE } : proc)) ∧
      (¬ (p.state = SLEEPING ∧ p.chan = chan) → (wakeup s chan).ptable[i]? = some p)) ∧
    (∀ (c : Nat) (p : proc), s.ptable[c]? = some p →
      (wakeup (sleep s c chan) chan).ptable[c]? =
        some ({ p with chan := chan, state := RUNNABLE } : proc)) := by
  refine ⟨by simp [wakeup, wakeup1], rfl, rfl, rfl, ?_, ?_⟩
  · intro i p hp
    constructor
    · intro h
      simp [wakeup, wakeup1, hp, h]
    · intro h
      simp only [wakeup, wakeup1, List.getElem?_map, hp, Option.map_some', if_neg h]
  · intro c p hp
    simp [wakeup, wakeup1, sleep, sched, getElem?_modifySlot, hp]

/-- Witness for C13: the init process of `initOfTwo` goes to sleep on a channel and is
RUNNABLE after the wakeup on that channel. -/
theorem wakeup_spec_witness :
    (wakeup (sleep initOfTwo 0 (Chan.addr 7)) (Chan.addr 7)).ptable[0]? =
      some ({ initOfTwo.slot 0 with chan := Chan.addr 7, state := RUNNABLE } : proc) :=
  (wakeup_spec initOfTwo (Chan.addr 7)).2.2.2.2.2 0 (initOfTwo.slot 0) (by decide)

/-- Claim C15.  For every integer `prio`, `set_priority(prio)` called by the process in slot
`c` returns 0, stores `prio` in that slot's priority, sets its timeslice to 32, 16, 8 for
`prio` 1, 2, 3 and to -1 for every other value, and changes nothing else. -/
theorem set_priority_spec (s : Kernel) (c : Nat) (prio : Int) :
    (set_priority s c prio).2 = 0 ∧
    (set_priority s c prio).1.ptable.length = s.ptable.length ∧
    (set_priority s c prio).1.nextpid = s.nextpid ∧
    (set_priority s c prio).1.initproc = s.initproc ∧
    (set_priority s c prio).1.cproc = s.cproc ∧
    (∀ j : Nat, j ≠ c → (set_priority s c prio).1.ptable[j]? = s.ptable[j]?) ∧
    (∀ p : proc, s.ptable[c]? = some p →
      ∃ b : Int, (set_priority s c prio).1.ptable[c]? =
          some ({ p with priority := prio, timeslice := b } : proc) ∧
        (prio = 1 → b = 32) ∧ (prio = 2 → b = 16) ∧ (prio = 3 → b = 8) ∧
        (prio ≠ 1 → prio ≠ 2 → prio ≠ 3 → b = -1)) := by
  refine ⟨rfl, by simp [set_priority, length_modifySlot], rfl, rfl, rfl, ?_, ?_⟩
  · intro j hj
    simp [set_priority, getElem?_modifySlot, hj]
  · intro p hp
    refine ⟨if prio = 1 then 32 else if prio = 2 then 16 else if prio = 3 then 8 else -1,
      by simp [set_priority, getElem?_modifySlot, hp], ?_, ?_, ?_, ?_⟩
    · intro h; simp [h]
    · intro h; simp [h]
    · intro h; simp [h]
    · intro h1 h2 h3; simp [h1, h2, h3]

/-- Witness for C15: the init process of `initOfTwo` calls `set_priority(3)`. -/
theorem set_priority_spec_witness :
    ∃ b : Int, (set_priority initOfTwo 0 3).1.ptable[0]? =
        some ({ initOfTwo.slot 0 with priority := 3, timeslice := b } : proc) ∧
      ((3 : Int) = 1 → b = 32) ∧ ((3 : Int) = 2 → b = 16) ∧ ((3 : Int) = 3 → b = 8) ∧
      ((3 : Int) ≠ 1 → (3 : Int) ≠ 2 → (3 : Int) ≠ 3 → b = -1) :=
  (set_priority_spec initOfTwo 0 3).2.2.2.2.2.2 (initOfTwo.slot 0) (by decide)



/-! ## The scheduler round -/

/-- Claim C18 evaluated on two tables in which level 3 is the highest level with a RUNNABLE
slot and its only RUNNABLE slot has timeslice 0.  In `exhaustedInit` the call sets that
timeslice to 8 and returns `NULL`; in `exhaustedParent` it sets it to 8 and returns the
priority-2 child in slot 1.  Level 3 is not scanned again after its epoch. -/
theorem top_level_not_retried :
    (∃ s, exhaustedInit = some s ∧ s.ptable.length = 2 ∧
      (s.slot 0).state = RUNNABLE ∧ (s.slot 0).priority = 3 ∧ (s.slot 0).timeslice = 0 ∧
      (s.slot 1).state = UNUSED ∧
      (getNextProcessToRun s.ptable).map (fun r => (r.1, r.2.map (fun p => p.timeslice)))
        = some (none, [8, 0])) ∧
    (∃ s, exhaustedParent = some s ∧ s.ptable.length = 2 ∧
      (s.slot 0).state = RUNNABLE ∧ (s.slot 0).priority = 3 ∧ (s.slot 0).timeslice = 0 ∧
      (s.slot 1).state = RUNNABLE ∧ (s.slot 1).priority = 2 ∧
      (getNextProcessToRun s.ptable).map (fun r => (r.1, r.2.map (fun p => p.timeslice)))
        = some (some 1, [8, 16])) := by
  refine ⟨⟨exhaustedInit.getD (boot 0 0), ?_⟩, ⟨exhaustedParent.getD (boot 0 0), ?_⟩⟩
  · decide
  · decide

theorem selectable_runnable {L : Int} {p : proc} (h : selectable L p = true) :
    p.state = RUNNABLE ∧ (0 < p.timeslice ∨ p.priority = 0) := by
  simp only [selectable, Bool.decide_or, Bool.or_eq_true, decide_eq_true_eq] at h
  rcases h with ⟨h1, h2, -⟩ | ⟨h1, h2, h3⟩
  · exact ⟨h1, Or.inl h2⟩
  · exact ⟨h1, Or.inr (by rw [h3, h2])⟩

/-- The result of `getNextProcessToRun`: the table is the input or the input after the
level-3 epoch, a slot returned passes the test of some level, and `NULL` is only returned
after the epoch. -/
theorem getNextProcessToRun_result {t t1 : List proc} {r : Option Nat}
    (h : getNextProcessToRun t = some (r, t1)) :
    (t1 = t ∨ t1 = replenish 3 t) ∧ (r = none → t1 = replenish 3 t) ∧
    ∀ i : Nat, r = some i → ∃ (p : proc) (L : Int), t1[i]? = some p ∧ selectable L p = true := by
  rw [getNextProcessToRun_eq] at h
  cases h3 : firstSlot (selectable 3) t with
  | some i =>
    simp only [h3, Option.some.injEq, Prod.mk.injEq] at h
    obtain ⟨rfl, rfl⟩ := h
    obtain ⟨p, hp, hc, -⟩ := firstSlot_some h3
    refine ⟨Or.inl rfl, fun h => Option.noConfusion h, fun j hj => ?_⟩
    simp only [Option.some.injEq] at hj
    subst hj
    exact ⟨p, 3, hp, hc⟩
  | none =>
    simp only [h3] at h
    cases h2 : firstSlot (selectable 2) (replenish 3 t) with
    | some i =>
      simp only [h2, Option.some.injEq, Prod.mk.injEq] at h
      obtain ⟨rfl, rfl⟩ := h
      obtain ⟨p, hp, hc, -⟩ := firstSlot_some h2
      refine ⟨Or.inr rfl, fun _ => rfl, fun j hj => ?_⟩
      simp only [Option.some.injEq] at hj
      subst hj
      exact ⟨p, 2, hp, hc⟩
    | none =>
      simp only [h2] at h
      cases h1 : firstSlot (selectable 1) (replenish 3 t) with
      | some i =>
        simp only [h1, Option.some.injEq, Prod.mk.injEq] at h
        obtain ⟨rfl, rfl⟩ := h
        obtain ⟨p, hp, hc, -⟩ := firstSlot_some h1
        refine ⟨Or.inr rfl, fun _ => rfl, fun j hj => ?_⟩
        simp only [Option.some.injEq] at hj
        subst hj
        exact ⟨p, 1, hp, hc⟩
      | none =>
        simp only [h1] at h
        cases h0 : firstSlot (selectable 0) (replenish 3 t) with
        | some i =>
          simp only [h0, Option.some.injEq, Prod.mk.injEq] at h
          obtain ⟨rfl, rfl⟩ := h
          obtain ⟨p, hp, hc, -⟩ := firstSlot_some h0
          refine ⟨Or.inr rfl, fun _ => rfl, fun j hj => ?_⟩
          simp only [Option.some.injEq] at hj
          subst hj
          exact ⟨p, 0, hp, hc⟩
        | none =>
          simp only [h0, Option.some.injEq, Prod.mk.injEq] at h
          obtain ⟨rfl, rfl⟩ := h
          exact ⟨Or.inr rfl, fun _ => rfl, fun j hj => Option.noConfusion hj⟩

/-- Every slot of the table left by `getNextProcessToRun` is the slot before with, at most,
a replenished timeslice. -/
theorem getNextProcessToRun_slots {t t1 : List proc} {r : Option Nat}
    (h : getNextProcessToRun t = some (r, t1)) (j : Nat) (pj : proc) (hj : t[j]? = some pj) :
    ∃ bj : Int, t1[j]? = some ({ pj with timeslice := bj } : proc) ∧
      (bj = pj.timeslice ∨ (pj.state = RUNNABLE ∧ pj.timeslice = 0 ∧ bj = 8)) ∧
      (r = none → pj.state = RUNNABLE → bj ≠ 0) := by
  obtain ⟨ht, hnone, -⟩ := getNextProcessToRun_result h
  by_cases hz : pj.state = RUNNABLE ∧ pj.timeslice = 0
  · rcases ht with rfl | rfl
    · refine ⟨pj.timeslice, hj, Or.inl rfl, fun hr _ => ?_⟩
      have h2 := getElem?_replenish 3 t1 j
      rw [← hnone hr, hj] at h2
      simp only [Option.map_some', Option.some.injEq, if_pos hz] at h2
      have h3 := congrArg proc.timeslice h2
      simp only [epochBudget] at h3
      rw [hz.2] at h3
      norm_num at h3
    · refine ⟨8, ?_, Or.inr ⟨hz.1, hz.2, rfl⟩, fun _ _ => by norm_num⟩
      rw [getElem?_replenish, hj]
      simp [hz, epochBudget]
  · refine ⟨pj.timeslice, ?_, Or.inl rfl, fun _ hr h0 => hz ⟨hr, h0⟩⟩
    rcases ht with rfl | rfl
    · exact hj
    · rw [getElem?_replenish, hj]; simp [hz]



theorem slot_of_state {s : Kernel} {p : Nat} {st : procstate} (hne : st ≠ UNUSED)
    (h : (s.slot p).state = st) : ∃ po : proc, s.ptable[p]? = some po ∧ po.state = st := by
  unfold Kernel.slot at h
  rw [List.getD_eq_getElem?_getD] at h
  cases hp : s.ptable[p]? with
  | none =>
    rw [hp] at h
    exact absurd h.symm hne
  | some po =>
    rw [hp] at h
    exact ⟨po, rfl, h⟩

/-- The effect of one scheduler iteration at a RUNNABLE slot `p` when the selection returns
`r` and leaves the table `t1`: the slot dispatched is `r`, or `p` if `r` is `NULL`. -/
theorem dispatch_effect {s : Kernel} {p : Nat} {r : Option Nat} {t1 : List proc}
    (hrun : (s.slot p).state = RUNNABLE)
    (hg : getNextProcessToRun s.ptable = some (r, t1)) :
    schedulerStep s p =
      some { s with ptable := modifySlot charge t1 (r.getD p), cproc := some (r.getD p) } ∧
    ∃ (po : proc) (b : Int), s.ptable[r.getD p]? = some po ∧ po.state = RUNNABLE ∧
      (b = po.timeslice ∨ (po.timeslice = 0 ∧ b = 8)) ∧ (po.priority = 0 ∨ b ≠ 0) ∧
      (modifySlot charge t1 (r.getD p))[r.getD p]? =
        some ({ po with state := RUNNING, rutime := po.rutime + 1,
                        timeslice := if po.priority ≠ 0 then b - 1 else b } : proc) ∧
      ∀ (j : Nat) (pj : proc), j ≠ r.getD p → s.ptable[j]? = some pj →
        ∃ bj : Int, (modifySlot charge t1 (r.getD p))[j]? =
            some ({ pj with timeslice := bj } : proc) ∧
          (bj = pj.timeslice ∨ (pj.state = RUNNABLE ∧ pj.timeslice = 0 ∧ bj = 8)) := by
  constructor
  · simp [schedulerStep, hrun, hg]
  · have hq : ∃ po : proc, s.ptable[r.getD p]? = some po := by
      cases r with
      | none =>
        obtain ⟨po, hpo, -⟩ := slot_of_state (by decide) hrun
        exact ⟨po, hpo⟩
      | some i =>
        obtain ⟨ht, -, hsel⟩ := getNextProcessToRun_result hg
        obtain ⟨p1, L, hp1, -⟩ := hsel i rfl
        cases hi : s.ptable[i]? with
        | some po => exact ⟨po, by simpa using hi⟩
        | none =>
          rcases ht with rfl | rfl
          · rw [hi] at hp1; cases hp1
          · rw [getElem?_replenish, hi] at hp1; cases hp1
    obtain ⟨po, hpo⟩ := hq
    obtain ⟨b, hb, hrel, hnz⟩ := getNextProcessToRun_slots hg _ po hpo
    have hfacts : po.state = RUNNABLE ∧ (po.priority = 0 ∨ b ≠ 0) := by
      cases r with
      | none =>
        obtain ⟨po1, hpo1, hst⟩ := slot_of_state (by decide) hrun
        simp only [Option.getD_none] at hpo
        rw [hpo] at hpo1
        simp only [Option.some.injEq] at hpo1
        subst hpo1
        exact ⟨hst, Or.inr (hnz rfl hst)⟩
      | some i =>
        obtain ⟨-, -, hsel⟩ := getNextProcessToRun_result hg
        obtain ⟨p1, L, hp1, hL⟩ := hsel i rfl
        simp only [Option.getD_some] at hb
        rw [hb] at hp1
        simp only [Option.some.injEq] at hp1
        subst hp1
        obtain ⟨h1, h2⟩ := selectable_runnable hL
        refine ⟨h1, ?_⟩
        rcases h2 with h2 | h2
        · exact Or.inr (by simp only at h2; omega)
        · exact Or.inl h2
    refine ⟨po, b, hpo, hfacts.1, ?_, hfacts.2, ?_, ?_⟩
    · rcases hrel with h | ⟨-, h1, h2⟩
      · exact Or.inl h
      · exact Or.inr ⟨h1, h2⟩
    · rw [getElem?_modifySlot, if_pos rfl, hb]
      simp [charge]
    · intro j pj hj hpj
      obtain ⟨bj, hbj, hrelj, -⟩ := getNextProcessToRun_slots hg j pj hpj
      exact ⟨bj, by rw [getElem?_modifySlot, if_neg hj, hbj], hrelj⟩



/-- Claim C19 (amended).  If `getNextProcessToRun` returns `NULL` in a scheduler iteration
entered at the RUNNABLE slot `p`, the scheduler dispatches `p` itself and no other slot:
`c->proc` is `p`, `p` is RUNNING, its `rutime` is one larger and its timeslice, as left by the
selection (unchanged, or replenished to a positive value if it was 0), is one smaller unless
its priority is 0.  Every other slot keeps its state, its `rutime` and all other fields; its
timeslice changes only by epoch replenishment. -/
theorem scheduler_dispatches_outer_slot (s : Kernel) (p : Nat) (t1 : List proc)
    (hrun : (s.slot p).state = RUNNABLE)
    (hn : getNextProcessToRun s.ptable = some (none, t1)) :
    ∃ (s1 : Kernel) (po : proc) (b : Int), schedulerStep s p = some s1 ∧ s1.cproc = some p ∧
      s.ptable[p]? = some po ∧ (b = po.timeslice ∨ (po.timeslice = 0 ∧ 0 < b)) ∧
      s1.ptable[p]? =
        some ({ po with state := RUNNING, rutime := po.rutime + 1,
                        timeslice := if po.priority ≠ 0 then b - 1 else b } : proc) ∧
      ∀ (j : Nat) (pj : proc), j ≠ p → s.ptable[j]? = some pj →
        ∃ bj : Int, s1.ptable[j]? = some ({ pj with timeslice := bj } : proc) ∧
          (bj = pj.timeslice ∨ (pj.state = RUNNABLE ∧ pj.timeslice = 0 ∧ 0 < bj)) := by
  obtain ⟨hstep, po, b, hpo, -, hb, -, hnew, hothers⟩ := dispatch_effect hrun hn
  simp only [Option.getD_none] at hstep hpo hnew hothers
  refine ⟨_, po, b, hstep, rfl, hpo, ?_, hnew, ?_⟩
  · rcases hb with h | ⟨h1, h2⟩
    · exact Or.inl h
    · exact Or.inr ⟨h1, by omega⟩
  · intro j pj hj hpj
    obtain ⟨bj, h1, h2⟩ := hothers j pj hj hpj
    refine ⟨bj, h1, ?_⟩
    rcases h2 with h | ⟨h3, h4, h5⟩
    · exact Or.inl h
    · exact Or.inr ⟨h3, h4, by omega⟩

/-- Witness for C19: the scheduler iteration at slot 0 of `exhaustedState`, where the
selection returns `NULL`. -/
theorem scheduler_dispatches_outer_slot_witness :
    ∃ (s1 : Kernel) (po : proc) (b : Int), schedulerStep exhaustedState 0 = some s1 ∧
      s1.cproc = some 0 ∧ exhaustedState.ptable[0]? = some po ∧
      (b = po.timeslice ∨ (po.timeslice = 0 ∧ 0 < b)) ∧
      s1.ptable[0]? =
        some ({ po with state := RUNNING, rutime := po.rutime + 1,
                        timeslice := if po.priority ≠ 0 then b - 1 else b } : proc) ∧
      ∀ (j : Nat) (pj : proc), j ≠ 0 → exhaustedState.ptable[j]? = some pj →
        ∃ bj : Int, s1.ptable[j]? = some ({ pj with timeslice := bj } : proc) ∧
          (bj = pj.timeslice ∨ (pj.state = RUNNABLE ∧ pj.timeslice = 0 ∧ 0 < bj)) :=
  scheduler_dispatches_outer_slot exhaustedState 0 (replenish 3 exhaustedState.ptable)
    (by decide) (by decide)

/-- Counterexample to C19 as stated.  In `exhaustedState` no process is current and
`getNextProcessToRun` returns `NULL`, yet the scheduler iteration at slot 0 dispatches slot 0:
its state becomes RUNNING, its `rutime` is charged, its timeslice goes from 0 (replenished to
8) to 7, and `c->proc` is slot 0. -/
theorem scheduler_dispatches_without_selection :
    exhaustedInit = some exhaustedState ∧ exhaustedState.cproc = none ∧
    (exhaustedState.slot 0).state = RUNNABLE ∧ (exhaustedState.slot 0).timeslice = 0 ∧
    (getNextProcessToRun exhaustedState.ptable).map (·.1) = some none ∧
    (schedulerStep exhaustedState 0).map (fun s1 => (s1.cproc, (s1.slot 0).state,
        (s1.slot 0).rutime - (exhaustedState.slot 0).rutime, (s1.slot 0).timeslice))
      = some (some 0, RUNNING, 1, 7) := by
  decide

/-- Claim C20 (amended).  In a scheduler iteration entered at a RUNNABLE slot, the slot `q`
that is dispatched was RUNNABLE before the iteration; at the context switch `c->proc` is `q`,
`q` is RUNNING, its `rutime` is one larger, and its timeslice, as left by the selection
(unchanged, or replenished to a positive value if it was 0), is one smaller if its priority
is not 0 and unchanged if it is 0.  Every other slot is unchanged except that its timeslice
may have been replenished by the epoch; `nextpid` and `initproc` are unchanged. -/
theorem scheduler_dispatch_effect (s s1 : Kernel) (p : Nat)
    (hrun : (s.slot p).state = RUNNABLE) (h : schedulerStep s p = some s1) :
    ∃ (q : Nat) (po : proc) (b : Int), s1.cproc = some q ∧ s.ptable[q]? = some po ∧
      po.state = RUNNABLE ∧ (b = po.timeslice ∨ (po.timeslice = 0 ∧ 0 < b)) ∧
      s1.ptable[q]? =
        some ({ po with state := RUNNING, rutime := po.rutime + 1,
                        timeslice := if po.priority ≠ 0 then b - 1 else b } : proc) ∧
      (∀ (j : Nat) (pj : proc), j ≠ q → s.ptable[j]? = some pj →
        ∃ bj : Int, s1.ptable[j]? = some ({ pj with timeslice := bj } : proc) ∧
          (bj = pj.timeslice ∨ (pj.state = RUNNABLE ∧ pj.timeslice = 0 ∧ 0 < bj))) ∧
      s1.ptable.length = s.ptable.length ∧ s1.nextpid = s.nextpid ∧
      s1.initproc = s.initproc := by
  obtain ⟨r, hg⟩ : ∃ r t1, getNextProcessToRun s.ptable = some (r, t1) := by
    obtain ⟨r, h1 | h1⟩ := getNextProcessToRun_table s.ptable
    · exact ⟨r, _, h1⟩
    · exact ⟨r, _, h1⟩
  obtain ⟨t1, hg⟩ := hg
  obtain ⟨hstep, po, b, hpo, hst, hb, -, hnew, hothers⟩ := dispatch_effect hrun hg
  rw [hstep] at h
  simp only [Option.some.injEq] at h
  subst h
  have hlen : t1.length = s.ptable.length := by
    rcases (getNextProcessToRun_result hg).1 with rfl | rfl
    · rfl
    · simp [replenish]
  refine ⟨r.getD p, po, b, rfl, hpo, hst, ?_, hnew, ?_, ?_, rfl, rfl⟩
  · rcases hb with h | ⟨h1, h2⟩
    · exact Or.inl h
    · exact Or.inr ⟨h1, by omega⟩
  · intro j pj hj hpj
    obtain ⟨bj, h1, h2⟩ := hothers j pj hj hpj
    refine ⟨bj, h1, ?_⟩
    rcases h2 with h | ⟨h3, h4, h5⟩
    · exact Or.inl h
    · exact Or.inr ⟨h3, h4, by omega⟩
  · simp [length_modifySlot, hlen]

/-- Witness for C20: the scheduler iteration at slot 0 of `initOfTwo`, which dispatches the
init process. -/
theorem scheduler_dispatch_effect_witness :
    ∃ (q : Nat) (po : proc) (b : Int),
      ((schedulerStep initOfTwo 0).getD initOfTwo).cproc = some q ∧
      initOfTwo.ptable[q]? = some po ∧
      po.state = RUNNABLE ∧ (b = po.timeslice ∨ (po.timeslice = 0 ∧ 0 < b)) ∧
      ((schedulerStep initOfTwo 0).getD initOfTwo).ptable[q]? =
        some ({ po with state := RUNNING, rutime := po.rutime + 1,
                        timeslice := if po.priority ≠ 0 then b - 1 else b } : proc) ∧
      (∀ (j : Nat) (pj : proc), j ≠ q → initOfTwo.ptable[j]? = some pj →
        ∃ bj : Int, ((schedulerStep initOfTwo 0).getD initOfTwo).ptable[j]? =
            some ({ pj with timeslice := bj } : proc) ∧
          (bj = pj.timeslice ∨ (pj.state = RUNNABLE ∧ pj.timeslice = 0 ∧ 0 < bj))) ∧
      ((schedulerStep initOfTwo 0).getD initOfTwo).ptable.length = initOfTwo.ptable.length ∧
      ((schedulerStep initOfTwo 0).getD initOfTwo).nextpid = initOfTwo.nextpid ∧
      ((schedulerStep initOfTwo 0).getD initOfTwo).initproc = initOfTwo.initproc :=
  scheduler_dispatch_effect initOfTwo ((schedulerStep initOfTwo 0).getD initOfTwo) 0
    (by decide) (by decide)

/-- Counterexample to C20 as stated, on two states.  In `exhaustedState` slot 0 has priority 3
and timeslice 0 before the iteration and timeslice 7 at the context switch, not one less than
before.  In `negativeState` slot 0 has priority -1, which is not greater than 0, and its
timeslice still goes from -1 to -2. -/
theorem dispatch_timeslice_not_as_stated :
    exhaustedInit = some exhaustedState ∧
    (exhaustedState.slot 0).state = RUNNABLE ∧ (exhaustedState.slot 0).priority = 3 ∧
    (exhaustedState.slot 0).timeslice = 0 ∧
    (schedulerStep exhaustedState 0).map (fun s1 => (s1.cproc, (s1.slot 0).state,
        (s1.slot 0).timeslice)) = some (some 0, RUNNING, 7) ∧
    negativeInit = some negativeState ∧
    (negativeState.slot 0).state = RUNNABLE ∧ (negativeState.slot 0).priority = -1 ∧
    (negativeState.slot 0).timeslice = -1 ∧
    (schedulerStep negativeState 0).map (fun s1 => (s1.cproc, (s1.slot 0).state,
        (s1.slot 0).timeslice)) = some (some 0, RUNNING, -2) := by
  decide



/-! ## The timeslice of a slot with positive priority is never negative -/

theorem forall_modifySlot_at {P : proc → Prop} {t : List proc} (f : proc → proc) (i : Nat)
    (ht : ∀ p ∈ t, P p) (hf : ∀ p : proc, t[i]? = some p → P (f p)) :
    ∀ p ∈ modifySlot f t i, P p := by
  intro p hp
  obtain ⟨j, hj⟩ := List.getElem?_of_mem hp
  rw [getElem?_modifySlot] at hj
  by_cases hji : j = i
  · subst hji
    simp only [if_true] at hj
    cases hq : t[j]? with
    | none => rw [hq] at hj; cases hj
    | some q =>
      rw [hq] at hj
      simp only [Option.map_some', Option.some.injEq] at hj
      rw [← hj]
      exact hf q hq
  · rw [if_neg hji] at hj
    exact ht p (List.getElem?_mem hj)

theorem forall_reparent {P : proc → Prop} (c : Nat) (ip : Option Nat)
    (hwake : ∀ p : proc, P p → P { p with state := RUNNABLE })
    (hpar : ∀ p : proc, P p → P { p with parent := ip }) :
    ∀ (k i : Nat) (t : List proc), (∀ p ∈ t, P p) → ∀ p ∈ reparent c ip k i t, P p := by
  have hw : ∀ (ch : Chan) (t : List proc), (∀ p ∈ t, P p) → ∀ p ∈ wakeup1 ch t, P p := by
    intro ch t ht
    apply forall_map
    intro p hp
    by_cases h : p.state = SLEEPING ∧ p.chan = ch
    · simpa [h] using hwake p (ht p hp)
    · simpa [h] using ht p hp
  intro k
  induction k with
  | zero => intro i t ht; simpa [reparent] using ht
  | succ k ih =>
    intro i t ht
    simp only [reparent]
    have h1 : ∀ p ∈ modifySlot (fun q => { q with parent := ip }) t i, P p :=
      forall_modifySlot _ i ht (fun p hp => hpar p (ht p hp))
    split
    · split
      · exact ih _ _ (hw _ _ h1)
      · exact ih _ _ h1
    · exact ih _ _ ht

theorem budgetOk_same {p q : proc} (h1 : q.priority = p.priority)
    (h2 : q.timeslice = p.timeslice) (h : budgetOk p) : budgetOk q := by
  unfold budgetOk at *
  rw [h1, h2]
  exact h

theorem budget_modify {t : List proc} (f : proc → proc) (i : Nat)
    (h : ∀ p ∈ t, budgetOk p)
    (hf : ∀ p, (f p).priority = p.priority ∧ (f p).timeslice = p.timeslice) :
    ∀ p ∈ modifySlot f t i, budgetOk p :=
  forall_modifySlot f i h (fun p hp => budgetOk_same (hf p).1 (hf p).2 (h p hp))

theorem budget_allocproc {s : Kernel} (ticks : Nat) (kalloc : Option Nat)
    (h : ∀ p ∈ s.ptable, budgetOk p) : ∀ p ∈ (allocproc s ticks kalloc).1.ptable, budgetOk p := by
  unfold allocproc
  have hfound : ∀ i, ∀ p ∈ modifySlot (claimSlot s.nextpid ticks) s.ptable i, budgetOk p :=
    fun i => forall_modifySlot _ i h (fun p _ => by simp [claimSlot, budgetOk])
  cases firstSlot (fun p => decide (p.state = UNUSED)) s.ptable with
  | none => exact h
  | some i =>
    cases kalloc with
    | none => exact budget_modify _ i (hfound i) (fun p => ⟨rfl, rfl⟩)
    | some a => exact budget_modify _ i (hfound i) (fun p => ⟨rfl, rfl⟩)

theorem budget_scheduler {s s1 : Kernel} {p : Nat} (hs : schedulerStep s p = some s1)
    (h : ∀ q ∈ s.ptable, budgetOk q) : ∀ q ∈ s1.ptable, budgetOk q := by
  by_cases hrun : (s.slot p).state = RUNNABLE
  · obtain ⟨r, hg⟩ : ∃ r t1, getNextProcessToRun s.ptable = some (r, t1) := by
      obtain ⟨r, h1 | h1⟩ := getNextProcessToRun_table s.ptable
      · exact ⟨r, _, h1⟩
      · exact ⟨r, _, h1⟩
    obtain ⟨t1, hg⟩ := hg
    obtain ⟨hstep, po, b, hpo, -, hb, hnz, hnew, hothers⟩ := dispatch_effect hrun hg
    rw [hstep] at hs
    simp only [Option.some.injEq] at hs
    subst hs
    have hlen : t1.length = s.ptable.length := by
      rcases (getNextProcessToRun_result hg).1 with rfl | rfl
      · rfl
      · simp [replenish]
    intro q hq
    obtain ⟨j, hj⟩ := List.getElem?_of_mem hq
    simp only at hj
    have hjlt : j < s.ptable.length := by
      have := (List.getElem?_eq_some.mp hj).1
      rw [length_modifySlot, hlen] at this
      exact this
    obtain ⟨pj, hpj⟩ : ∃ pj, s.ptable[j]? = some pj := ⟨_, List.getElem?_eq_getElem hjlt⟩
    by_cases hjq : j = r.getD p
    · subst hjq
      rw [hnew] at hj
      simp only [Option.some.injEq] at hj
      rw [hpo] at hpj
      simp only [Option.some.injEq] at hpj
      subst hpj
      have hok := h po (List.getElem?_mem hpo)
      rw [← hj]
      unfold budgetOk at hok ⊢
      simp only
      refine ⟨hok.1, fun hpos => ?_⟩
      have h0 := hok.2 hpos
      have hne : po.priority ≠ 0 := by omega
      rw [if_pos hne]
      rcases hnz with hz | hz
      · exact absurd hz hne
      · rcases hb with hb | ⟨-, hb⟩ <;> omega
    · obtain ⟨bj, h1, h2⟩ := hothers j pj hjq hpj
      rw [h1] at hj
      simp only [Option.some.injEq] at hj
      have hok := h pj (List.getElem?_mem hpj)
      rw [← hj]
      unfold budgetOk at hok ⊢
      simp only
      refine ⟨hok.1, fun hpos => ?_⟩
      have h0 := hok.2 hpos
      rcases h2 with h2 | ⟨-, -, h2⟩ <;> omega
  · simp only [schedulerStep, hrun, ne_eq, not_false_eq_true, if_true, Option.some.injEq] at hs
    subst hs
    exact h

theorem budget_op {s s1 : Kernel} (hstep : Op s s1) (h : ∀ p ∈ s.ptable, budgetOk p) :
    ∀ p ∈ s1.ptable, budgetOk p := by
  cases hstep with
  | allocproc ticks kalloc => exact budget_allocproc ticks kalloc h
  | userinit _ ticks kalloc setupkvm namei pgsize hu =>
    unfold userinit at hu
    have ha := budget_allocproc ticks kalloc h
    revert hu ha
    rcases allocproc s ticks kalloc with ⟨s2, _ | i⟩
    · intro hu; cases hu
    · cases setupkvm with
      | none => intro hu; cases hu
      | some pg =>
        intro hu ha
        simp only [Option.some.injEq] at hu
        subst hu
        exact budget_modify _ i ha (fun p => ⟨rfl, rfl⟩)
  | growproc c n vm =>
    unfold growproc
    split
    · exact h
    · exact budget_modify _ c h (fun p => ⟨rfl, rfl⟩)
  | fork c ticks kalloc copyuvm hrun =>
    unfold fork
    have ha := budget_allocproc ticks kalloc h
    revert ha
    rcases allocproc s ticks kalloc with ⟨s2, _ | i⟩
    · exact fun ha => ha
    · cases copyuvm with
      | none => exact fun ha => budget_modify _ i ha (fun p => ⟨rfl, rfl⟩)
      | some pg => exact fun ha => budget_modify _ i ha (fun p => ⟨rfl, rfl⟩)
  | exit s2 c he =>
    unfold exit at he
    split at he
    · cases he
    · simp only [Option.some.injEq] at he
      subst he
      have h0 : ∀ p ∈ modifySlot
          (fun p => { p with ofile := p.ofile.map (fun _ => none), cwd := none }) s.ptable c,
          budgetOk p := budget_modify _ c h (fun p => ⟨rfl, rfl⟩)
      have hw : ∀ (ch : Chan) (t : List proc), (∀ p ∈ t, budgetOk p) →
          ∀ p ∈ wakeup1 ch t, budgetOk p := by
        intro ch t ht
        apply forall_map
        intro p hp
        by_cases hc : p.state = SLEEPING ∧ p.chan = ch
        · simpa [hc] using (budgetOk_same rfl rfl (ht p hp) : budgetOk { p with state := RUNNABLE })
        · simpa [hc] using ht p hp
      have hr : ∀ (ip : Option Nat) (k i : Nat) (t : List proc), (∀ p ∈ t, budgetOk p) →
          ∀ p ∈ reparent c ip k i t, budgetOk p := fun ip =>
        forall_reparent c ip (fun p hp => budgetOk_same rfl rfl hp)
          (fun p hp => budgetOk_same rfl rfl hp)
      show ∀ p ∈ modifySlot _ _ c, budgetOk p
      refine forall_modifySlot _ c ?_ ?_
      · exact hr _ _ _ _ (hw _ _ h0)
      · intro p hp
        exact budgetOk_same rfl rfl (hr _ _ _ _ (hw _ _ h0) p hp)
  | wait c =>
    unfold wait
    split
    · exact budget_modify _ _ h (fun p => ⟨rfl, rfl⟩)
    · split
      · exact h
      · exact budget_modify _ c h (fun p => ⟨rfl, rfl⟩)
  | wait2 c out =>
    unfold wait2
    split
    · exact budget_modify _ _ h (fun p => ⟨rfl, rfl⟩)
    · split
      · exact h
      · exact budget_modify _ c h (fun p => ⟨rfl, rfl⟩)
  | kill pid =>
    unfold kill
    split
    · exact budget_modify _ _ h (fun p => ⟨rfl, rfl⟩)
    · exact h
  | scheduler _ p hs => exact budget_scheduler hs h
  | set_priority c prio h0 h3 =>
    apply forall_modifySlot _ c h
    intro p _
    unfold budgetOk
    simp only
    refine ⟨h0, fun hpos => ?_⟩
    split
    · norm_num
    · split
      · norm_num
      · split
        · norm_num
        · omega
  | yield c => exact budget_modify _ c h (fun p => ⟨rfl, rfl⟩)
  | sleep c chan => exact budget_modify _ c h (fun p => ⟨rfl, rfl⟩)
  | sleepReturn c => exact budget_modify _ c h (fun p => ⟨rfl, rfl⟩)
  | wakeup chan =>
    apply forall_map
    intro p hp
    by_cases hc : p.state = SLEEPING ∧ p.chan = chan
    · simpa [hc] using (budgetOk_same rfl rfl (h p hp) : budgetOk { p with state := RUNNABLE })
    · simpa [hc] using h p hp
  | tick =>
    apply forall_map
    intro p hp
    have := h p hp
    obtain ⟨sz, pgdir, kstack, state, pid, parent, chan, killed, ofile, cwd, name, ctime, stime,
      retime, rutime, elapsed, priority, timeslice⟩ := p
    cases state <;> simpa [tickSlot, budgetOk] using this

/-- Claim C16.  In every state reachable from the zero-initialised table by the operations of
`proc.c`, with `set_priority` called with an argument from 0 to 3, every slot whose priority
is greater than 0 has a timeslice that is not negative. -/
theorem timeslice_nonneg (nproc nofile : Nat) (s : Kernel)
    (hs : ReachableFrom (boot nproc nofile) s) :
    ∀ p ∈ s.ptable, 0 < p.priority → 0 ≤ p.timeslice := by
  have hinv : ∀ p ∈ s.ptable, budgetOk p := by
    induction hs with
    | start =>
      intro p hp
      simp only [boot, List.mem_replicate] at hp
      rw [hp.2]
      simp [budgetOk, procZero]
    | step s s1 _ hstep ih => exact budget_op hstep ih
  exact fun p hp => (hinv p hp).2

/-- Witness for C16: the state `initOfTwo` is reached from the zero-initialised table of two
slots by `userinit`, and its init process has priority 2 and timeslice 16. -/
theorem timeslice_nonneg_witness :
    ReachableFrom (boot 2 0) initOfTwo ∧
    ∀ p ∈ initOfTwo.ptable, 0 < p.priority → 0 ≤ p.timeslice :=
  ⟨ReachableFrom.step _ _ ReachableFrom.start
      (Op.userinit _ _ 0 (some 1) (some 2) (some 3) 4096 (by decide)),
    timeslice_nonneg 2 0 initOfTwo
      (ReachableFrom.step _ _ ReachableFrom.start
        (Op.userinit _ _ 0 (some 1) (some 2) (some 3) 4096 (by decide)))⟩



/-! ## exit -/

theorem wakeup1_eq_map (ch : Chan) (t : List proc) : wakeup1 ch t = t.map (wake ch) := rfl

theorem wake_wake (ch : Chan) (p : proc) : wake ch (wake ch p) = wake ch p := by
  unfold wake
  by_cases h : p.state = SLEEPING ∧ p.chan = ch
  · simp [h]
  · simp [h]

theorem adopt_wake (c : Nat) (ip : Option Nat) (ch : Chan) (p : proc) :
    adopt c ip (wake ch p) = wake ch (adopt c ip p) := by
  unfold wake adopt
  by_cases h : p.state = SLEEPING ∧ p.chan = ch <;> by_cases h2 : p.parent = some c <;>
    simp [h, h2]

theorem wake_parent (ch : Chan) (p : proc) : (wake ch p).parent = p.parent := by
  unfold wake; split <;> rfl

theorem wake_zombie (ch : Chan) (p : proc) : (wake ch p).state = ZOMBIE ↔ p.state = ZOMBIE := by
  unfold wake
  by_cases h : p.state = SLEEPING ∧ p.chan = ch
  · simp [h]
  · simp [h]

theorem zombieChildFrom_step (c : Nat) {i : Nat} {t : List proc} {p : proc}
    (hp : t[i]? = some p) :
    zombieChildFrom c i t = (decide (p.parent = some c ∧ p.state = ZOMBIE) ||
      zombieChildFrom c (i + 1) t) := by
  obtain ⟨hlt, rfl⟩ := List.getElem?_eq_some.mp hp
  unfold zombieChildFrom
  rw [List.drop_eq_getElem_cons hlt]
  simp only [List.any_cons]

theorem drop_modifySlot (f : proc → proc) (t : List proc) (i : Nat) :
    (modifySlot f t i).drop (i + 1) = t.drop (i + 1) := by
  induction t generalizing i with
  | nil => simp [modifySlot]
  | cons a as ih =>
    cases i with
    | zero => simp [modifySlot]
    | succ i => simp [modifySlot, ih]

theorem zombieChildFrom_modifySlot (c : Nat) (f : proc → proc) (t : List proc) (i : Nat) :
    zombieChildFrom c (i + 1) (modifySlot f t i) = zombieChildFrom c (i + 1) t := by
  unfold zombieChildFrom
  rw [drop_modifySlot]

theorem zombieChildFrom_wakeup1 (c : Nat) (ch : Chan) (t : List proc) (i : Nat) :
    zombieChildFrom c i (wakeup1 ch t) = zombieChildFrom c i t := by
  unfold zombieChildFrom
  rw [wakeup1_eq_map, ← List.map_drop, List.any_map]
  congr 1
  funext p
  simp [wake_parent, wake_zombie]



/-- The table after the reparenting loop of `exit`, slot by slot. -/
theorem reparent_getElem? (c : Nat) (ip : Option Nat) :
    ∀ (n i : Nat) (t : List proc), i + n = t.length → ∀ j : Nat,
      (reparent c ip n i t)[j]? =
        t[j]?.map (settle c ip (zombieChildFrom c i t) (decide (i ≤ j))) := by
  intro n
  induction n with
  | zero =>
    intro i t hlen j
    have hz : zombieChildFrom c i t = false := by
      unfold zombieChildFrom
      rw [List.drop_eq_nil_iff.mpr (by omega)]
      rfl
    simp only [reparent, hz]
    cases hj : t[j]? with
    | none => rfl
    | some p =>
      have hlt := (List.getElem?_eq_some.mp hj).1
      have : decide (i ≤ j) = false := by simp; omega
      simp [this, settle]
  | succ n ih =>
    intro i t hlen j
    have hlt : i < t.length := by omega
    have hp : t[i]? = some t[i] := List.getElem?_eq_getElem hlt
    generalize t[i] = p at hp
    have hget : t.getD i default = p := by simp [hp]
    have hget1 : (modifySlot (fun q => { q with parent := ip }) t i).getD i default
        = { p with parent := ip } := by
      simp [getElem?_modifySlot, hp]
    simp only [reparent, hget, hget1]
    rw [zombieChildFrom_step c hp]
    by_cases hpar : p.parent = some c
    · rw [if_pos hpar]
      by_cases hz : p.state = ZOMBIE
      · rw [if_pos hz]
        rw [ih (i + 1) _ (by simp [wakeup1, length_modifySlot]; omega) j]
        rw [zombieChildFrom_wakeup1, zombieChildFrom_modifySlot]
        simp only [wakeup1_eq_map, List.getElem?_map, getElem?_modifySlot, hpar, hz, and_self,
          decide_True, Bool.true_or]
        by_cases hji : j = i
        · subst hji
          simp only [if_true, hp, Option.map_some', Option.some.injEq]
          have h1 : decide (j + 1 ≤ j) = false := by simp
          have h2 : decide (j ≤ j) = true := by simp
          rw [h1, h2]
          cases zombieChildFrom c (j + 1) t <;> simp [settle, adopt, hpar, wake_wake]
        · rw [if_neg hji]
          cases hq : t[j]? with
          | none => rfl
          | some q =>
            simp only [Option.map_some', Option.some.injEq]
            have h1 : decide (i + 1 ≤ j) = decide (i ≤ j) := by
              by_cases h : i ≤ j
              · have : i + 1 ≤ j := by omega
                simp [h, this]
              · have : ¬ i + 1 ≤ j := by omega
                simp [h, this]
            rw [h1]
            cases zombieChildFrom c (i + 1) t <;> cases decide (i ≤ j) <;>
              simp [settle, adopt_wake, wake_wake]
      · rw [if_neg hz]
        rw [ih (i + 1) _ (by simp [length_modifySlot]; omega) j]
        rw [zombieChildFrom_modifySlot]
        simp only [getElem?_modifySlot, hz, and_false, decide_False, Bool.false_or]
        by_cases hji : j = i
        · subst hji
          simp only [if_true, hp, Option.map_some', Option.some.injEq]
          have h1 : decide (j + 1 ≤ j) = false := by simp
          have h2 : decide (j ≤ j) = true := by simp
          rw [h1, h2]
          cases zombieChildFrom c (j + 1) t <;> simp [settle, adopt, hpar]
        · rw [if_neg hji]
          have h1 : decide (i + 1 ≤ j) = decide (i ≤ j) := by
            by_cases h : i ≤ j
            · have : i + 1 ≤ j := by omega
              simp [h, this]
            · have : ¬ i + 1 ≤ j := by omega
              simp [h, this]
          rw [h1]
    · rw [if_neg hpar]
      rw [ih (i + 1) _ (by omega) j]
      simp only [hpar, false_and, decide_False, Bool.false_or]
      by_cases hji : j = i
      · subst hji
        simp only [hp, Option.map_some', Option.some.injEq]
        have h1 : decide (j + 1 ≤ j) = false := by simp
        have h2 : decide (j ≤ j) = true := by simp
        rw [h1, h2]
        cases zombieChildFrom c (j + 1) t <;> simp [settle, adopt, hpar]
      · have h1 : decide (i + 1 ≤ j) = decide (i ≤ j) := by
          by_cases h : i ≤ j
          · have : i + 1 ≤ j := by omega
            simp [h, this]
          · have : ¬ i + 1 ≤ j := by omega
            simp [h, this]
        rw [h1]

theorem any_modifySlot (pred : proc → Bool) (f : proc → proc)
    (h : ∀ p, pred (f p) = pred p) (t : List proc) (i : Nat) :
    (modifySlot f t i).any pred = t.any pred := by
  induction t generalizing i with
  | nil => rfl
  | cons a as ih =>
    cases i with
    | zero => simp [modifySlot, h]
    | succ i => simp [modifySlot, ih]

theorem getD_modifySlot_parent (f : proc → proc) (h : ∀ p, (f p).parent = p.parent)
    (t : List proc) (i : Nat) :
    ((modifySlot f t i).getD i default).parent = (t.getD i default).parent := by
  simp only [List.getD_eq_getElem?_getD, getElem?_modifySlot, if_true]
  cases t[i]? with
  | none => rfl
  | some p => exact h p

theorem wake_state (ch : Chan) (p : proc) :
    (wake ch p).state = if p.state = SLEEPING ∧ p.chan = ch then RUNNABLE else p.state := by
  unfold wake
  split <;> rfl

theorem wake_chan (ch : Chan) (p : proc) : (wake ch p).chan = p.chan := by
  unfold wake
  split <;> rfl

theorem settle_parent (c : Nat) (ip : Option Nat) (z : Bool) (p : proc) :
    (settle c ip z true p).parent = if p.parent = some c then ip else p.parent := by
  unfold settle adopt
  cases z <;> by_cases h : p.parent = some c <;> simp [h, wake_parent]

theorem settle_state (c : Nat) (ip : Option Nat) (z : Bool) (p : proc) :
    (settle c ip z true p).state =
      if z = true ∧ p.state = SLEEPING ∧ p.chan = chanOf ip then RUNNABLE else p.state := by
  unfold settle adopt
  cases z <;> by_cases h : p.parent = some c <;> simp [h, wake_state]

/-- The effect of `exit` on each slot, up to the call of `sched`. -/
theorem exit_slot {s s1 : Kernel} {c : Nat} (h : exit s c = some s1) :
    s.initproc ≠ some c ∧ s1.nextpid = s.nextpid ∧ s1.initproc = s.initproc ∧
    s1.cproc = s.cproc ∧ s1.ptable.length = s.ptable.length ∧
    ∀ (j : Nat) (p : proc), s.ptable[j]? = some p → ∃ q : proc, s1.ptable[j]? = some q ∧
      q.parent = (if p.parent = some c then s.initproc else p.parent) ∧
      (j = c → q.state = ZOMBIE) ∧
      (j ≠ c → q.state = p.state ∨ (p.state = SLEEPING ∧ q.state = RUNNABLE)) ∧
      (j ≠ c → p.state = SLEEPING → p.chan = chanOf (s.slot c).parent →
        q.state = RUNNABLE) ∧
      (j ≠ c → zombieChildFrom c 0 s.ptable = true → p.state = SLEEPING →
        p.chan = chanOf s.initproc → q.state = RUNNABLE) := by
  unfold exit at h
  split at h
  · cases h
  · rename_i hne
    simp only [Option.some.injEq] at h
    subst h
    refine ⟨fun h => hne h.symm, rfl, rfl, rfl, ?_, ?_⟩
    · have hrlen : ∀ (n i : Nat) (t : List proc),
          (reparent c s.initproc n i t).length = t.length := by
        intro n
        induction n with
        | zero => intro i t; rfl
        | succ n ih =>
          intro i t
          simp only [reparent]
          split
          · split
            · rw [ih]; simp [wakeup1, length_modifySlot]
            · rw [ih]; simp [length_modifySlot]
          · rw [ih]
      simp [length_modifySlot, hrlen, wakeup1]
    · intro j p hp
      have hch : chanOf ((modifySlot
          (fun p => { p with ofile := p.ofile.map (fun _ => none), cwd := none })
          s.ptable c).getD c default).parent = chanOf (s.slot c).parent := by
        rw [getD_modifySlot_parent]
        · rfl
        · intro p; rfl
      have hz : zombieChildFrom c 0 (wakeup1 (chanOf (s.slot c).parent) (modifySlot
          (fun p => { p with ofile := p.ofile.map (fun _ => none), cwd := none })
          s.ptable c)) = zombieChildFrom c 0 s.ptable := by
        rw [zombieChildFrom_wakeup1]
        unfold zombieChildFrom
        simp only [List.drop_zero]
        rw [any_modifySlot]
        intro p; rfl
      simp only [hch, getElem?_modifySlot]
      rw [reparent_getElem? c s.initproc _ 0 _ (by simp) j, hz]
      simp only [wakeup1_eq_map, List.getElem?_map, getElem?_modifySlot, hp, Option.map_some',
        Nat.zero_le, decide_True]
      by_cases hjc : j = c
      · subst hjc
        simp only [if_true, Option.map_some', Option.some.injEq, exists_eq_left', ne_eq,
          not_true_eq_false, false_implies, and_true, true_implies]
        rw [settle_parent, wake_parent]
      · simp only [hjc, if_false, Option.map_some', Option.some.injEq, exists_eq_left', ne_eq,
          not_false_eq_true, true_implies, false_implies, true_and]
        rw [settle_parent, wake_parent, settle_state, wake_chan, wake_state]
        refine ⟨rfl, ?_, ?_, ?_⟩
        · by_cases hA : p.state = SLEEPING ∧ p.chan = chanOf (s.slot c).parent
          · simp [hA]
          · by_cases hB : zombieChildFrom c 0 s.ptable = true ∧ p.state = SLEEPING ∧
                p.chan = chanOf s.initproc
            · simp [hA, hB]
            · simp only [if_neg hA, if_neg hB, true_or]
        · intro h1 h2
          simp [h1, h2]
        · intro h1 h2 h3
          by_cases hA : p.state = SLEEPING ∧ p.chan = chanOf (s.slot c).parent
          · simp [hA]
          · simp [hA, h1, h2, h3]



/-- Claim C14.  If the caller `c` is `initproc`, `exit` panics before any write.  Otherwise,
for a RUNNING caller `c`, the state in which `exit` calls `sched` has the same number of
slots and satisfies: `c` is ZOMBIE; every slot whose parent was `c` has `initproc` as parent
and no slot has `c` as parent; every slot that was SLEEPING on the channel of `c`'s parent is
RUNNABLE; if some child of `c` was ZOMBIE, every slot that was SLEEPING on the channel
`initproc` is RUNNABLE; the parent of every slot that was not a child of `c` is unchanged. -/
theorem exit_spec (s : Kernel) (c : Nat) :
    (s.initproc = some c → exit s c = none) ∧
    (s.initproc ≠ some c → (s.slot c).state = RUNNING →
      ∃ s1 : Kernel, exit s c = some s1 ∧ s1.ptable.length = s.ptable.length ∧
        (s1.slot c).state = ZOMBIE ∧
        ∀ (j : Nat) (p : proc), s.ptable[j]? = some p → ∃ q : proc, s1.ptable[j]? = some q ∧
          (p.parent = some c → q.parent = s.initproc) ∧ q.parent ≠ some c ∧
          (p.state = SLEEPING → p.chan = chanOf (s.slot c).parent → q.state = RUNNABLE) ∧
          ((∃ k ∈ s.ptable, k.parent = some c ∧ k.state = ZOMBIE) → p.state = SLEEPING →
            p.chan = chanOf s.initproc → q.state = RUNNABLE) ∧
          (p.parent ≠ some c → q.parent = p.parent)) := by
  constructor
  · intro h
    simp [exit, h]
  · intro hne hrun
    have hne2 : ¬ some c = s.initproc := fun h => hne h.symm
    obtain ⟨s1, hs1⟩ : ∃ s1, exit s c = some s1 := by
      simp only [exit, if_neg hne2]
      exact ⟨_, rfl⟩
    obtain ⟨-, -, -, -, hlen, hslots⟩ := exit_slot hs1
    obtain ⟨pc, hpc, hpcs⟩ := slot_of_state (by decide) hrun
    refine ⟨s1, hs1, hlen, ?_, ?_⟩
    · obtain ⟨q, hq, -, hz, -⟩ := hslots c pc hpc
      simp [Kernel.slot, hq, hz rfl]
    · intro j p hp
      obtain ⟨q, hq, hpar, -, hstate, hw1, hw2⟩ := hslots j p hp
      have hjc : p.state = SLEEPING → j ≠ c := by
        intro hsl hjc
        subst hjc
        rw [hp] at hpc
        simp only [Option.some.injEq] at hpc
        subst hpc
        rw [hsl] at hpcs
        cases hpcs
      refine ⟨q, hq, ?_, ?_, ?_, ?_, ?_⟩
      · intro h; rw [hpar, if_pos h]
      · rw [hpar]
        split
        · exact hne
        · assumption
      · intro h1 h2
        exact hw1 (hjc h1) h1 h2
      · rintro ⟨k, hk, hk1, hk2⟩ h1 h2
        refine hw2 (hjc h1) ?_ h1 h2
        unfold zombieChildFrom
        rw [List.drop_zero, List.any_eq_true]
        exact ⟨k, hk, by simp [hk1, hk2]⟩
      · intro h; rw [hpar, if_neg h]

/-- Witness for C14: in `nestedState` the RUNNING process of slot 1 exits; its child in slot 2
passes to init and its parent init, asleep in `wait`, becomes RUNNABLE.  In `initOfTwo` an
`exit` of init panics. -/
theorem exit_spec_witness :
    exit initOfTwo 0 = none ∧
    ∃ s1 : Kernel, exit nestedState 1 = some s1 ∧
      s1.ptable.length = nestedState.ptable.length ∧ (s1.slot 1).state = ZOMBIE ∧
      ∀ (j : Nat) (p : proc), nestedState.ptable[j]? = some p →
        ∃ q : proc, s1.ptable[j]? = some q ∧
          (p.parent = some 1 → q.parent = nestedState.initproc) ∧ q.parent ≠ some 1 ∧
          (p.state = SLEEPING → p.chan = chanOf (nestedState.slot 1).parent →
            q.state = RUNNABLE) ∧
          ((∃ k ∈ nestedState.ptable, k.parent = some 1 ∧ k.state = ZOMBIE) →
            p.state = SLEEPING → p.chan = chanOf nestedState.initproc → q.state = RUNNABLE) ∧
          (p.parent ≠ some 1 → q.parent = p.parent) :=
  ⟨(exit_spec initOfTwo 0).1 (by decide), (exit_spec nestedState 1).2 (by decide) (by decide)⟩



/-! ## Parents are never UNUSED -/

theorem gentle_refl (t : List proc) : gentle t t :=
  ⟨fun _ h => h, fun _ p hp => ⟨p, hp, fun h => h, Or.inl rfl⟩⟩

theorem gentle_trans {a b c : List proc} (h1 : gentle a b) (h2 : gentle b c) : gentle a c := by
  refine ⟨fun j hj => h2.1 j (h1.1 j hj), ?_⟩
  intro j p hp
  obtain ⟨q, hq, hal, hpar⟩ := h1.2 j p hp
  obtain ⟨r, hr, hal2, hpar2⟩ := h2.2 j q hq
  refine ⟨r, hr, fun h => hal2 (hal h), ?_⟩
  rcases hpar2 with h | h | h
  · rcases hpar with h' | h' | ⟨k, qk, hk1, hk2, hk3⟩
    · exact Or.inl (h.trans h')
    · exact Or.inr (Or.inl (h.trans h'))
    · obtain ⟨rk, hrk, halk, -⟩ := h2.2 k qk hk2
      exact Or.inr (Or.inr ⟨k, rk, h.trans hk1, hrk, halk hk3⟩)
  · exact Or.inr (Or.inl h)
  · exact Or.inr (Or.inr h)

theorem gentle_modify {t : List proc} (f : proc → proc) (i : Nat)
    (hf : ∀ p : proc, t[i]? = some p →
      (alive p → alive (f p)) ∧ ((f p).parent = p.parent ∨ (f p).parent = none)) :
    gentle t (modifySlot f t i) := by
  refine ⟨fun j hj => ?_, fun j p hp => ?_⟩
  · rw [getElem?_modifySlot, hj]
    split <;> rfl
  · rw [getElem?_modifySlot, hp]
    by_cases hji : j = i
    · subst hji
      obtain ⟨h1, h2⟩ := hf p hp
      refine ⟨f p, by simp, h1, ?_⟩
      rcases h2 with h2 | h2
      · exact Or.inl h2
      · exact Or.inr (Or.inl h2)
    · exact ⟨p, by simp [hji], fun h => h, Or.inl rfl⟩

theorem gentle_map {t : List proc} (f : proc → proc)
    (hf : ∀ p : proc, (alive p → alive (f p)) ∧ (f p).parent = p.parent) :
    gentle t (t.map f) := by
  refine ⟨fun j hj => by simp [hj], fun j p hp => ?_⟩
  exact ⟨f p, by simp [hp], (hf p).1, Or.inl (hf p).2⟩

theorem gentle_single {t t1 : List proc} {i : Nat} {p q : proc} (hp : t[i]? = some p)
    (h1 : ∀ j : Nat, t1[j]? = if j = i then some q else t[j]?)
    (ha : alive p → alive q)
    (hpar : q.parent = p.parent ∨ q.parent = none ∨
      ∃ (k : Nat) (qk : proc), q.parent = some k ∧ t1[k]? = some qk ∧ alive qk) :
    gentle t t1 := by
  refine ⟨fun j hj => ?_, fun j pj hpj => ?_⟩
  · rw [h1 j]
    by_cases hji : j = i
    · subst hji; rw [hp] at hj; cases hj
    · rw [if_neg hji]; exact hj
  · rw [h1 j]
    by_cases hji : j = i
    · subst hji
      rw [hp] at hpj
      simp only [Option.some.injEq] at hpj
      subst hpj
      exact ⟨q, by simp, ha, hpar⟩
    · exact ⟨pj, by simp [hji, hpj], fun h => h, Or.inl rfl⟩

theorem parents_of_gentle {t t1 : List proc} (hg : gentle t t1)
    (h : ∀ (j : Nat) (p : proc) (k : Nat), t[j]? = some p → p.parent = some k →
      ∃ q : proc, t[k]? = some q ∧ alive q) :
    ∀ (j : Nat) (p : proc) (k : Nat), t1[j]? = some p → p.parent = some k →
      ∃ q : proc, t1[k]? = some q ∧ alive q := by
  intro j q k hq hk
  cases hp : t[j]? with
  | none => rw [hg.1 j hp] at hq; cases hq
  | some p =>
    obtain ⟨q1, hq1, -, hpar⟩ := hg.2 j p hp
    rw [hq1] at hq
    simp only [Option.some.injEq] at hq
    subst hq
    rcases hpar with h1 | h1 | ⟨k1, qk, h1, h2, h3⟩
    · obtain ⟨pk, hpk, hal⟩ := h j p k hp (h1 ▸ hk)
      obtain ⟨qk, hqk, hal2, -⟩ := hg.2 k pk hpk
      exact ⟨qk, hqk, hal2 hal⟩
    · rw [h1] at hk; cases hk
    · rw [h1] at hk
      simp only [Option.some.injEq] at hk
      subst hk
      exact ⟨qk, h2, h3⟩

theorem parentsAlive_of_gentle {s s1 : Kernel} (hg : gentle s.ptable s1.ptable)
    (hi : s1.initproc = s.initproc) (h : parentsAlive s) : parentsAlive s1 := by
  obtain ⟨⟨ip, q, h1, h2, h3⟩, hpar⟩ := h
  obtain ⟨q1, hq1, hal, -⟩ := hg.2 ip q h2
  exact ⟨⟨ip, q1, hi.trans h1, hq1, hal h3⟩, parents_of_gentle hg hpar⟩

/-- What `allocproc` does to the table, whether or not it succeeds: nothing, or one UNUSED
slot `i` is replaced by a slot that is EMBRYO (returned) or UNUSED again (not returned). -/
theorem allocproc_cases (s : Kernel) (ticks : Nat) (kalloc : Option Nat) :
    allocproc s ticks kalloc = (s, none) ∨
    ∃ (i : Nat) (p q : proc), s.ptable[i]? = some p ∧ p.state = UNUSED ∧
      q.parent = p.parent ∧
      (((allocproc s ticks kalloc).2 = some i ∧ q.state = EMBRYO) ∨
        ((allocproc s ticks kalloc).2 = none ∧ q.state = UNUSED)) ∧
      (allocproc s ticks kalloc).1.initproc = s.initproc ∧
      ∀ j : Nat, (allocproc s ticks kalloc).1.ptable[j]? =
        if j = i then some q else s.ptable[j]? := by
  unfold allocproc
  cases hf : firstSlot (fun p => decide (p.state = UNUSED)) s.ptable with
  | none => exact Or.inl rfl
  | some i =>
    obtain ⟨p, hp, hc, -⟩ := firstSlot_some hf
    simp only [decide_eq_true_eq] at hc
    right
    cases kalloc with
    | none =>
      refine ⟨i, p, { claimSlot s.nextpid ticks p with kstack := none, state := UNUSED }, hp, hc,
        rfl, Or.inr ⟨rfl, rfl⟩, rfl, fun j => ?_⟩
      simp only [getElem?_modifySlot]
      by_cases hj : j = i
      · subst hj; simp [hp]
      · simp [hj]
    | some a =>
      refine ⟨i, p, { claimSlot s.nextpid ticks p with kstack := some a }, hp, hc,
        rfl, Or.inl ⟨rfl, rfl⟩, rfl, fun j => ?_⟩
      simp only [getElem?_modifySlot]
      by_cases hj : j = i
      · subst hj; simp [hp]
      · simp [hj]

theorem not_alive_unused {p : proc} (h : p.state = UNUSED) : ¬ alive p := fun ha => ha.1 h

theorem alive_of_state {p : proc} {st : procstate} (h : p.state = st) (h1 : st ≠ UNUSED)
    (h2 : st ≠ ZOMBIE) : alive p := ⟨by rw [h]; exact h1, by rw [h]; exact h2⟩

theorem gentle_allocproc (s : Kernel) (ticks : Nat) (kalloc : Option Nat) :
    gentle s.ptable (allocproc s ticks kalloc).1.ptable ∧
    (allocproc s ticks kalloc).1.initproc = s.initproc := by
  rcases allocproc_cases s ticks kalloc with h | ⟨i, p, q, hp, hst, hpar, -, hi, htab⟩
  · rw [h]; exact ⟨gentle_refl _, rfl⟩
  · exact ⟨gentle_single hp htab (fun ha => absurd ha (not_alive_unused hst)) (Or.inl hpar), hi⟩

theorem gentle_modify_single {t t2 : List proc} {i : Nat} {p q : proc} (f : proc → proc)
    (hp : t[i]? = some p) (htab : ∀ j : Nat, t2[j]? = if j = i then some q else t[j]?)
    (ha : alive p → alive (f q))
    (hpar : (f q).parent = p.parent ∨ (f q).parent = none ∨
      ∃ (k : Nat) (qk : proc), (f q).parent = some k ∧ k ≠ i ∧ t[k]? = some qk ∧ alive qk) :
    gentle t (modifySlot f t2 i) := by
  have h1 : ∀ j : Nat, (modifySlot f t2 i)[j]? = if j = i then some (f q) else t[j]? := by
    intro j
    rw [getElem?_modifySlot, htab j]
    by_cases hj : j = i <;> simp [hj]
  refine gentle_single hp h1 ha ?_
  rcases hpar with h | h | ⟨k, qk, hk1, hk2, hk3, hk4⟩
  · exact Or.inl h
  · exact Or.inr (Or.inl h)
  · exact Or.inr (Or.inr ⟨k, qk, hk1, by rw [h1 k, if_neg hk2]; exact hk3, hk4⟩)

theorem gentle_fork (s : Kernel) (c ticks : Nat) (kalloc copyuvm : Option Nat)
    (hrun : (s.slot c).state = RUNNING) :
    gentle s.ptable (fork s c ticks kalloc copyuvm).1.ptable ∧
    (fork s c ticks kalloc copyuvm).1.initproc = s.initproc := by
  have hcases := allocproc_cases s ticks kalloc
  rcases ha : allocproc s ticks kalloc with ⟨s2, r⟩
  rw [ha] at hcases
  rcases hcases with h | ⟨i, p, q, hp, hst, hpar, hres, hi, htab⟩
  · simp only [Prod.mk.injEq] at h
    obtain ⟨rfl, rfl⟩ := h
    simp only [fork, ha]
    exact ⟨gentle_refl _, trivial⟩
  · simp only at hres hi htab
    have hdead : ∀ x : proc, alive p → alive x := fun x ha =>
      absurd ha (not_alive_unused hst)
    rcases hres with ⟨hr, hq⟩ | ⟨hr, hq⟩
    · subst hr
      obtain ⟨pc, hpc, hpcs⟩ := slot_of_state (by decide) hrun
      have hci : c ≠ i := by
        rintro rfl
        rw [hp] at hpc
        simp only [Option.some.injEq] at hpc
        subst hpc
        rw [hst] at hpcs
        cases hpcs
      cases copyuvm with
      | none =>
        simp only [fork, ha]
        exact ⟨gentle_modify_single _ hp htab (hdead _) (Or.inl hpar), hi⟩
      | some pg =>
        simp only [fork, ha]
        exact ⟨gentle_modify_single _ hp htab (hdead _)
          (Or.inr (Or.inr ⟨c, pc, rfl, hci, hpc,
            alive_of_state hpcs (by decide) (by decide)⟩)), hi⟩
    · subst hr
      simp only [fork, ha]
      exact ⟨gentle_single hp htab (hdead _) (Or.inl hpar), hi⟩



theorem alive_runnable {p : proc} (h : p.state = RUNNABLE) : alive p :=
  alive_of_state h (by decide) (by decide)

theorem alive_running {p : proc} (h : p.state = RUNNING) : alive p :=
  alive_of_state h (by decide) (by decide)

theorem alive_sleeping {p : proc} (h : p.state = SLEEPING) : alive p :=
  alive_of_state h (by decide) (by decide)

theorem getElem?_modifySlot_self {t : List proc} {i : Nat} {q : proc} (f : proc → proc)
    (h : t[i]? = some q) : (modifySlot f t i)[i]? = some (f q) := by
  rw [getElem?_modifySlot, h]
  simp

theorem gentle_state_parent {t : List proc} (f : proc → proc) (i : Nat)
    (hs : ∀ p : proc, alive p → alive (f p)) (hp : ∀ p : proc, (f p).parent = p.parent) :
    gentle t (modifySlot f t i) :=
  gentle_modify f i (fun p _ => ⟨hs p, Or.inl (hp p)⟩)

theorem gentle_replenish (q : Nat) (t : List proc) : gentle t (replenish q t) := by
  unfold replenish
  refine gentle_map _ (fun p => ?_)
  split
  · exact ⟨fun h => h, rfl⟩
  · exact ⟨fun h => h, rfl⟩

theorem gentle_wakeup1 (chan : Chan) (t : List proc) : gentle t (wakeup1 chan t) := by
  unfold wakeup1
  refine gentle_map _ (fun p => ?_)
  split
  · exact ⟨fun _ => alive_runnable rfl, rfl⟩
  · exact ⟨fun h => h, rfl⟩

theorem tickSlot_state (p : proc) :
    (tickSlot p).state = p.state ∧ (tickSlot p).parent = p.parent := by
  cases h : p.state <;> simp [tickSlot, h]

theorem gentle_updateFields (t : List proc) : gentle t (updateFields t) := by
  unfold updateFields
  refine gentle_map _ (fun p => ⟨fun h => ?_, (tickSlot_state p).2⟩)
  unfold alive
  rw [(tickSlot_state p).1]
  exact h

theorem gentle_sleep (s : Kernel) (c : Nat) (chan : Chan) :
    gentle s.ptable (sleep s c chan).ptable :=
  gentle_state_parent _ c (fun _ _ => alive_sleeping rfl) (fun _ => rfl)

theorem gentle_reap {s : Kernel} {c i : Nat}
    (h : firstSlot (fun p => p.parent = some c ∧ p.state = ZOMBIE) s.ptable = some i) :
    gentle s.ptable (modifySlot reap s.ptable i) := by
  obtain ⟨p, hp, hc, -⟩ := firstSlot_some h
  simp only [decide_eq_true_eq] at hc
  refine gentle_modify reap i (fun p1 hp1 => ⟨fun ha => ?_, Or.inr rfl⟩)
  rw [hp] at hp1
  simp only [Option.some.injEq] at hp1
  subst hp1
  exact absurd hc.2 ha.2

theorem gentle_wait (s : Kernel) (c : Nat) :
    gentle s.ptable (wait s c).1.ptable ∧ (wait s c).1.initproc = s.initproc := by
  cases h : firstSlot (fun p => p.parent = some c ∧ p.state = ZOMBIE) s.ptable with
  | some i =>
    rw [wait_found h]
    exact ⟨gentle_reap h, rfl⟩
  | none =>
    rw [wait_not_found h]
    split
    · exact ⟨gentle_refl _, rfl⟩
    · exact ⟨gentle_sleep s c _, rfl⟩

theorem gentle_wait2 (s : Kernel) (c : Nat) (out : Times) :
    gentle s.ptable (wait2 s c out).1.ptable ∧ (wait2 s c out).1.initproc = s.initproc := by
  cases h : firstSlot (fun p => p.parent = some c ∧ p.state = ZOMBIE) s.ptable with
  | some i =>
    rw [wait2_found out h]
    exact ⟨gentle_reap h, rfl⟩
  | none =>
    rw [wait2_not_found out h]
    split
    · exact ⟨gentle_refl _, rfl⟩
    · exact ⟨gentle_sleep s c _, rfl⟩

theorem gentle_kill (s : Kernel) (pid : Int) :
    gentle s.ptable (kill s pid).1.ptable ∧ (kill s pid).1.initproc = s.initproc := by
  unfold kill
  cases firstSlot (fun p => decide (p.pid = pid)) s.ptable with
  | none => exact ⟨gentle_refl _, rfl⟩
  | some i =>
    refine ⟨gentle_state_parent _ i (fun p ha => ?_) (fun _ => rfl), rfl⟩
    by_cases hs : p.state = SLEEPING
    · exact alive_runnable (if_pos hs)
    · exact ⟨fun h => ha.1 ((if_neg hs).symm.trans h), fun h => ha.2 ((if_neg hs).symm.trans h)⟩

theorem gentle_growproc (s : Kernel) (c : Nat) (n : Int) (vm : Nat) :
    gentle s.ptable (growproc s c n vm).1.ptable ∧
    (growproc s c n vm).1.initproc = s.initproc := by
  unfold growproc
  split
  · exact ⟨gentle_refl _, rfl⟩
  · exact ⟨gentle_state_parent _ c (fun _ h => h) (fun _ => rfl), rfl⟩

theorem gentle_scheduler {s s1 : Kernel} {p : Nat} (h : schedulerStep s p = some s1) :
    gentle s.ptable s1.ptable ∧ s1.initproc = s.initproc := by
  unfold schedulerStep at h
  split at h
  · simp only [Option.some.injEq] at h
    subst h
    exact ⟨gentle_refl _, rfl⟩
  · split at h
    · cases h
    · rename_i p1 t hg
      simp only [Option.some.injEq] at h
      subst h
      have ht : gentle s.ptable t := by
        rcases (getNextProcessToRun_result hg).1 with h1 | h1
        · rw [h1]; exact gentle_refl _
        · rw [h1]; exact gentle_replenish 3 _
      exact ⟨gentle_trans ht (gentle_state_parent charge _
        (fun _ _ => alive_running rfl) (fun _ => rfl)), rfl⟩

/-- After `userinit` the pointer `initproc` refers to a RUNNABLE slot, and no process has
exited. -/
theorem userinit_gentle {s s1 : Kernel} {ticks : Nat} {kalloc setupkvm namei : Option Nat}
    {pgsize : Nat} (h : userinit s ticks kalloc setupkvm namei pgsize = some s1) :
    gentle s.ptable s1.ptable ∧
    ∃ (ip : Nat) (q : proc), s1.initproc = some ip ∧ s1.ptable[ip]? = some q ∧ alive q := by
  unfold userinit at h
  have hcases := allocproc_cases s ticks kalloc
  have hgen := (gentle_allocproc s ticks kalloc).1
  rcases ha : allocproc s ticks kalloc with ⟨s2, r⟩
  rw [ha] at hcases hgen h
  cases r with
  | none => cases h
  | some i =>
    cases setupkvm with
    | none => cases h
    | some pg =>
      simp only [Option.some.injEq] at h
      subst h
      refine ⟨gentle_trans hgen (gentle_state_parent _ i
        (fun _ _ => alive_runnable rfl) (fun _ => rfl)), ?_⟩
      rcases hcases with h | ⟨i1, p, q, -, -, -, hres, -, htab⟩
      · cases h
      · simp only at hres htab
        rcases hres with ⟨hr, -⟩ | ⟨hr, -⟩
        · simp only [Option.some.injEq] at hr
          subst hr
          have hq : s2.ptable[i]? = some q := by rw [htab i]; simp
          exact ⟨i, _, rfl, getElem?_modifySlot_self _ hq, alive_runnable rfl⟩
        · cases hr

theorem parentsAlive_userinit {s s1 : Kernel} {ticks : Nat} {kalloc setupkvm namei : Option Nat}
    {pgsize : Nat} (h : userinit s ticks kalloc setupkvm namei pgsize = some s1)
    (hpar : ∀ (j : Nat) (p : proc) (k : Nat), s.ptable[j]? = some p → p.parent = some k →
      ∃ q : proc, s.ptable[k]? = some q ∧ alive q) : parentsAlive s1 :=
  ⟨(userinit_gentle h).2, parents_of_gentle (userinit_gentle h).1 hpar⟩

theorem parentsAlive_exit {s s1 : Kernel} {c : Nat} (h : exit s c = some s1)
    (hinv : parentsAlive s) : parentsAlive s1 := by
  obtain ⟨hne, -, hi, -, hlen, hslot⟩ := exit_slot h
  obtain ⟨⟨ip, qi, h1, h2, h3⟩, hpar⟩ := hinv
  have hic : ip ≠ c := fun hc => hne (hc ▸ h1)
  have hkeep : ∀ (k : Nat) (pk : proc), k ≠ c → s.ptable[k]? = some pk → alive pk →
      ∃ q : proc, s1.ptable[k]? = some q ∧ alive q := by
    intro k pk hk hpk hal
    obtain ⟨q, hq, -, -, hst, -⟩ := hslot k pk hpk
    refine ⟨q, hq, ?_⟩
    rcases hst hk with h | ⟨-, h⟩
    · exact ⟨fun hu => hal.1 (h.symm.trans hu), fun hu => hal.2 (h.symm.trans hu)⟩
    · exact alive_runnable h
  refine ⟨?_, ?_⟩
  · obtain ⟨q, hq, hal⟩ := hkeep ip qi hic h2 h3
    exact ⟨ip, q, hi.trans h1, hq, hal⟩
  · intro j q k hq hk
    cases hp : s.ptable[j]? with
    | none =>
      have hj : s.ptable.length ≤ j := List.getElem?_eq_none_iff.mp hp
      rw [← hlen] at hj
      rw [List.getElem?_eq_none_iff.mpr hj] at hq
      cases hq
    | some p =>
      obtain ⟨q1, hq1, hpq, -⟩ := hslot j p hp
      rw [hq1] at hq
      simp only [Option.some.injEq] at hq
      subst hq
      rw [hk] at hpq
      by_cases hpc : p.parent = some c
      · rw [if_pos hpc, h1] at hpq
        simp only [Option.some.injEq] at hpq
        subst hpq
        exact hkeep k qi hic h2 h3
      · rw [if_neg hpc] at hpq
        obtain ⟨pk, hpk, hal⟩ := hpar j p k hp hpq.symm
        have hkc : k ≠ c := fun hkc => hpc (hkc ▸ hpq.symm)
        exact hkeep k pk hkc hpk hal

theorem parentsAlive_op {s s1 : Kernel} (hop : Op s s1) (h : parentsAlive s) :
    parentsAlive s1 := by
  cases hop with
  | allocproc ticks kalloc =>
    exact parentsAlive_of_gentle (gentle_allocproc s ticks kalloc).1
      (gentle_allocproc s ticks kalloc).2 h
  | userinit _ ticks kalloc setupkvm namei pgsize hu => exact parentsAlive_userinit hu h.2
  | growproc c n vm =>
    exact parentsAlive_of_gentle (gentle_growproc s c n vm).1 (gentle_growproc s c n vm).2 h
  | fork c ticks kalloc copyuvm hrun =>
    exact parentsAlive_of_gentle (gentle_fork s c ticks kalloc copyuvm hrun).1
      (gentle_fork s c ticks kalloc copyuvm hrun).2 h
  | exit s2 c he =>
    have h2 := parentsAlive_exit he h
    exact h2
  | wait c => exact parentsAlive_of_gentle (gentle_wait s c).1 (gentle_wait s c).2 h
  | wait2 c out =>
    exact parentsAlive_of_gentle (gentle_wait2 s c out).1 (gentle_wait2 s c out).2 h
  | kill pid => exact parentsAlive_of_gentle (gentle_kill s pid).1 (gentle_kill s pid).2 h
  | scheduler _ p hs =>
    exact parentsAlive_of_gentle (gentle_scheduler hs).1 (gentle_scheduler hs).2 h
  | set_priority c prio h0 h3 =>
    exact parentsAlive_of_gentle
      (gentle_state_parent _ c (fun _ ha => ha) (fun _ => rfl)) rfl h
  | yield c =>
    exact parentsAlive_of_gentle (gentle_state_parent _ c
      (fun _ _ => alive_runnable rfl) (fun _ => rfl)) rfl h
  | sleep c chan => exact parentsAlive_of_gentle (gentle_sleep s c chan) rfl h
  | sleepReturn c =>
    exact parentsAlive_of_gentle
      (gentle_state_parent _ c (fun _ ha => ha) (fun _ => rfl)) rfl h
  | wakeup chan => exact parentsAlive_of_gentle (gentle_wakeup1 chan s.ptable) rfl h
  | tick => exact parentsAlive_of_gentle (gentle_updateFields s.ptable) rfl h

theorem parentsAlive_reachable {s0 s : Kernel} (h0 : parentsAlive s0)
    (hs : ReachableFrom s0 s) : parentsAlive s := by
  induction hs with
  | start => exact h0
  | step s1 s2 _ hop ih => exact parentsAlive_op hop ih

theorem boot_parent {nproc nofile j : Nat} {p : proc}
    (h : (boot nproc nofile).ptable[j]? = some p) : p.parent = none := by
  have hm := List.getElem?_mem h
  rw [List.eq_of_mem_replicate hm]
  rfl

/-- Claim C17: in every state reachable from the state right after `userinit` by the
operations of `proc.c` (`fork`, successful or failed, by a RUNNING process; `exit` by a
process other than `initproc`; `wait`, `wait2`, `kill`, `wakeup`, scheduler dispatch, and
also `yield`, `sleep`, `set_priority`, `growproc`, timer ticks and further allocations), the
parent of every slot is null or refers to a slot of the table whose state is not UNUSED;
indeed that slot is not ZOMBIE either. -/
theorem parent_never_unused (nproc nofile ticks : Nat) (kalloc setupkvm namei : Option Nat)
    (pgsize : Nat) (s0 s : Kernel)
    (h0 : userinit (boot nproc nofile) ticks kalloc setupkvm namei pgsize = some s0)
    (hs : ReachableFrom s0 s) :
    ∀ (j : Nat) (p : proc), s.ptable[j]? = some p →
      p.parent = none ∨
      ∃ (k : Nat) (q : proc), p.parent = some k ∧ s.ptable[k]? = some q ∧
        q.state ≠ UNUSED ∧ q.state ≠ ZOMBIE := by
  intro j p hp
  have hinv : parentsAlive s :=
    parentsAlive_reachable
      (parentsAlive_userinit h0 (fun j p k hj hk => by rw [boot_parent hj] at hk; cases hk)) hs
  cases hk : p.parent with
  | none => exact Or.inl rfl
  | some k =>
    obtain ⟨q, hq, hal⟩ := hinv.2 j p k hp hk
    exact Or.inr ⟨k, q, rfl, hq, hal.1, hal.2⟩

/-- Witness for C17: `forkedInit` is reached from the state after `userinit` by a dispatch of
init and its `fork`; the parent of its slot 1 is slot 0. -/
theorem parent_never_unused_witness :
    userinit (boot 2 0) 0 (some 1) (some 2) (some 3) 4096 = some initOfTwo ∧
    ReachableFrom initOfTwo forkedInit ∧
    ∀ (j : Nat) (p : proc), forkedInit.ptable[j]? = some p →
      p.parent = none ∨
      ∃ (k : Nat) (q : proc), p.parent = some k ∧ forkedInit.ptable[k]? = some q ∧
        q.state ≠ UNUSED ∧ q.state ≠ ZOMBIE :=
  ⟨by decide,
    ReachableFrom.step _ _
      (ReachableFrom.step _ _ ReachableFrom.start (Op.scheduler _ dispatchedInit 0 (by decide)))
      (Op.fork _ 0 0 (some 5) (some 6) (by decide)),
    parent_never_unused 2 0 0 (some 1) (some 2) (some 3) 4096 initOfTwo forkedInit (by decide)
      (ReachableFrom.step _ _
        (ReachableFrom.step _ _ ReachableFrom.start (Op.scheduler _ dispatchedInit 0 (by decide)))
        (Op.fork _ 0 0 (some 5) (some 6) (by decide)))⟩


/-! ## No division by zero in the selection -/

/-- When `updateNextEpoch` divides by zero: only at level 0, only if `expired[0]` is set, and
only if the loop meets a slot that is RUNNABLE with timeslice 0. -/
theorem updateNextEpoch_none_iff (t : List proc) (priority : Nat) (expired : List Int)
    (exit : Int) :
    updateNextEpoch t priority expired exit = none ↔
      priority = 0 ∧ expired.getD 0 0 ≠ 0 ∧
        ∃ p ∈ t, p.state = RUNNABLE ∧ p.timeslice = 0 := by
  unfold updateNextEpoch
  constructor
  · intro h
    split at h
    · cases h
    · rename_i he
      split at h
      · rename_i hz
        obtain ⟨h0, hany⟩ := hz
        subst h0
        refine ⟨rfl, he, ?_⟩
        rw [List.any_eq_true] at hany
        obtain ⟨p, hp, hc⟩ := hany
        exact ⟨p, hp, by simpa using hc⟩
      · cases h
  · rintro ⟨rfl, he, p, hp, hc⟩
    rw [if_neg he, if_pos]
    refine ⟨rfl, ?_⟩
    rw [List.any_eq_true]
    exact ⟨p, hp, by simpa using hc⟩

/-- The function `levelLoop` divides by zero exactly when one of the calls of
`updateNextEpoch` that it makes does. -/
theorem levelLoop_none_iff (prioIndices : List Nat) (levels : List Nat) :
    ∀ (t : List proc) (expired : List Int) (exit : Int),
      levelLoop prioIndices levels t expired exit = none ↔
        ∃ c ∈ epochCalls prioIndices levels t expired exit,
          updateNextEpoch c.table c.priority c.expired c.exit = none := by
  induction levels with
  | nil => intro t expired exit; simp [levelLoop, epochCalls]
  | cons L rest ih =>
    intro t expired exit
    simp only [levelLoop, epochCalls]
    cases scanLevel t L (prioIndices.getD L 0) t.length 0 with
    | some idx => simp
    | none =>
      cases hu : updateNextEpoch t L expired exit with
      | none => simp [hu]
      | some r =>
        obtain ⟨t1, expired1, exit1⟩ := r
        by_cases hx : exit1 = 0
        · simp [hu, hx, ih]
        · simp [hu, hx]

/-- The calls of `updateNextEpoch` made by `getNextProcessToRun`, level by level. -/
theorem getNextProcessToRunCalls_eq (t : List proc) :
    getNextProcessToRunCalls t =
      match firstSlot (selectable 3) t with
      | some _ => []
      | none =>
        { table := t, priority := 3, expired := [0, 1, 1, 1], exit := 0 } ::
        match firstSlot (selectable 2) (replenish 3 t) with
        | some _ => []
        | none =>
          { table := replenish 3 t, priority := 2, expired := [0, 1, 1, 0], exit := 0 } ::
          match firstSlot (selectable 1) (replenish 3 t) with
          | some _ => []
          | none =>
            { table := replenish 3 t, priority := 1, expired := [0, 1, 0, 0], exit := 0 } ::
            match firstSlot (selectable 0) (replenish 3 t) with
            | some _ => []
            | none =>
              [{ table := replenish 3 t, priority := 0, expired := [0, 0, 0, 0],
                 exit := 0 }] := by
  simp only [getNextProcessToRunCalls, epochCalls, scanLevel_zero, List.getD_cons_succ,
    List.getD_cons_zero, Nat.cast_ofNat, Nat.cast_one, Nat.cast_zero]
  cases firstSlot (selectable 3) t with
  | some i => rfl
  | none =>
    simp only [updateNextEpoch_three, ne_eq, not_true_eq_false, if_false]
    cases firstSlot (selectable 2) (replenish 3 t) with
    | some i => rfl
    | none =>
      simp only [updateNextEpoch_two, ne_eq, not_true_eq_false, if_false, replenish_replenish]
      cases firstSlot (selectable 1) (replenish 3 t) with
      | some i => rfl
      | none =>
        simp only [updateNextEpoch_one, ne_eq, not_true_eq_false, if_false,
          replenish_replenish]
        cases firstSlot (selectable 0) (replenish 3 t) with
        | some i => rfl
        | none =>
          simp only [updateNextEpoch_zero, ne_eq, not_true_eq_false, if_false]

/-- Every call of `updateNextEpoch` made by `getNextProcessToRun` has one of four argument
lists: level 3 with `expired = {0, 1, 1, 1}`, level 2 with `{0, 1, 1, 0}`, level 1 with
`{0, 1, 0, 0}`, level 0 with `{0, 0, 0, 0}`; `exit` is 0 in each. -/
theorem getNextProcessToRunCalls_args (t : List proc) :
    ∀ c ∈ getNextProcessToRunCalls t,
      (c.priority, c.expired, c.exit) ∈
        [(3, [0, 1, 1, 1], (0 : Int)), (2, [0, 1, 1, 0], 0), (1, [0, 1, 0, 0], 0),
          (0, [0, 0, 0, 0], 0)] := by
  intro c hc
  rw [getNextProcessToRunCalls_eq] at hc
  cases h3 : firstSlot (selectable 3) t with
  | some i => rw [h3] at hc; simp at hc
  | none =>
    cases h2 : firstSlot (selectable 2) (replenish 3 t) with
    | some i =>
      rw [h3, h2] at hc
      simp only [List.mem_singleton] at hc
      subst hc; simp
    | none =>
      cases h1 : firstSlot (selectable 1) (replenish 3 t) with
      | some i =>
        rw [h3, h2, h1] at hc
        simp only [List.mem_cons, List.mem_singleton, List.not_mem_nil, or_false] at hc
        rcases hc with rfl | rfl <;> simp
      | none =>
        cases h0 : firstSlot (selectable 0) (replenish 3 t) with
        | some i =>
          rw [h3, h2, h1, h0] at hc
          simp only [List.mem_cons, List.mem_singleton, List.not_mem_nil, or_false] at hc
          rcases hc with rfl | rfl | rfl <;> simp
        | none =>
          rw [h3, h2, h1, h0] at hc
          simp only [List.mem_cons, List.mem_singleton, List.not_mem_nil, or_false] at hc
          rcases hc with rfl | rfl | rfl | rfl <;> simp

/-- Claim C21.  For every process table, `getNextProcessToRun` returns (a slot or `NULL`,
with the table it leaves) without dividing by zero.  Every call of `updateNextEpoch` that it
makes is for a level from 0 to 3 and does not divide by zero; a call for level 0 is made with
`expired[0] = 0` and returns at once, leaving the table, `expired` and `exit` as they are; a
call for level 3, 2 or 1 has that non-zero level as the divisor. -/
theorem getNextProcessToRun_no_division_by_zero (t : List proc) :
    (∃ (r : Option Nat) (t1 : List proc), getNextProcessToRun t = some (r, t1)) ∧
    ∀ c ∈ getNextProcessToRunCalls t,
      updateNextEpoch c.table c.priority c.expired c.exit ≠ none ∧
      (c.priority = 0 → c.expired.getD 0 0 = 0 ∧
        updateNextEpoch c.table c.priority c.expired c.exit =
          some (c.table, c.expired, c.exit)) ∧
      (c.priority ≠ 0 → c.priority = 3 ∨ c.priority = 2 ∨ c.priority = 1) := by
  have hcalls : ∀ c ∈ getNextProcessToRunCalls t,
      updateNextEpoch c.table c.priority c.expired c.exit ≠ none ∧
      (c.priority = 0 → c.expired.getD 0 0 = 0 ∧
        updateNextEpoch c.table c.priority c.expired c.exit =
          some (c.table, c.expired, c.exit)) ∧
      (c.priority ≠ 0 → c.priority = 3 ∨ c.priority = 2 ∨ c.priority = 1) := by
    intro c hc
    have hargs := getNextProcessToRunCalls_args t c hc
    obtain ⟨tb, priority, expired, exit⟩ := c
    simp only [List.mem_cons, Prod.mk.injEq, List.mem_singleton, List.not_mem_nil,
      or_false] at hargs
    rcases hargs with ⟨rfl, rfl, rfl⟩ | ⟨rfl, rfl, rfl⟩ | ⟨rfl, rfl, rfl⟩ | ⟨rfl, rfl, rfl⟩
    · refine ⟨?_, fun h => absurd h (by simp), fun _ => Or.inl rfl⟩
      rw [updateNextEpoch_three]; exact Option.noConfusion
    · refine ⟨?_, fun h => absurd h (by simp), fun _ => Or.inr (Or.inl rfl)⟩
      rw [updateNextEpoch_two]; exact Option.noConfusion
    · refine ⟨?_, fun h => absurd h (by simp), fun _ => Or.inr (Or.inr rfl)⟩
      rw [updateNextEpoch_one]; exact Option.noConfusion
    · refine ⟨?_, fun _ => ⟨rfl, updateNextEpoch_zero tb⟩, fun h => absurd rfl h⟩
      rw [updateNextEpoch_zero]; exact Option.noConfusion
  refine ⟨?_, hcalls⟩
  cases hg : getNextProcessToRun t with
  | some r => exact ⟨r.1, r.2, rfl⟩
  | none =>
    unfold getNextProcessToRun at hg
    rw [levelLoop_none_iff] at hg
    obtain ⟨c, hc, hnone⟩ := hg
    exact absurd hnone (hcalls c hc).1

/-- Witness for C21: on the table of `exhaustedState` (slot 0 RUNNABLE at priority 3 with
timeslice 0, slot 1 UNUSED) all four levels are scanned without success, so the call of
`updateNextEpoch` for level 0 is made; it is made with `expired = {0, 0, 0, 0}`. -/
theorem getNextProcessToRun_no_division_by_zero_witness :
    ({ table := replenish 3 exhaustedState.ptable, priority := 0, expired := [0, 0, 0, 0],
       exit := 0 } : EpochCall) ∈ getNextProcessToRunCalls exhaustedState.ptable ∧
    updateNextEpoch (replenish 3 exhaustedState.ptable) 0 [0, 0, 0, 0] 0 ≠ none ∧
    ((0 : Nat) = 0 → ([0, 0, 0, 0] : List Int).getD 0 0 = 0 ∧
      updateNextEpoch (replenish 3 exhaustedState.ptable) 0 [0, 0, 0, 0] 0 =
        some (replenish 3 exhaustedState.ptable, [0, 0, 0, 0], 0)) ∧
    ((0 : Nat) ≠ 0 → (0 : Nat) = 3 ∨ (0 : Nat) = 2 ∨ (0 : Nat) = 1) :=
  ⟨by decide,
    (getNextProcessToRun_no_division_by_zero exhaustedState.ptable).2
      { table := replenish 3 exhaustedState.ptable, priority := 0, expired := [0, 0, 0, 0],
        exit := 0 } (by decide)⟩

end Xv6
